import Mathlib

/-!
# lebab: the CommonJS import transform (src/transform/commonjs/importCommonjs.js)

A shallow embedding of the transform that rewrites
`const a = require('x')` and its variants into ES module imports.

* `JS` is the value universe the syntax tree is made of (ESTree nodes are plain objects).
* `matchesAst`, `extract`, `isString`, the syntax constructors, `multiReplaceStatement` and the
  traversal driver live in other files of the repository; they are modelled from the
  specification and marked as such.
* Everything from `isIdentifier` to `enter` follows importCommonjs.js line by line.

Scope of the model: a property read on something that is not an object gives `undefined`,
and an array method applied to something that is not an array gives a non-match. On such
malformed trees the JavaScript would raise a TypeError; the specification puts them out of scope.
-/

namespace Lebab

/-- A JavaScript value of the kind a syntax tree is made of. Numbers are a payload the
transform never inspects. An object is its list of own properties in insertion order. -/
inductive JS where
  | undefined
  | null
  | bool (b : Bool)
  | num (n : Int)
  | str (s : String)
  | arr (items : List JS)
  | obj (props : List (String × JS))

namespace JS

mutual
/-- Deciding the equality of two values. -/
def decEq : (a b : JS) → Decidable (a = b)
  | undefined, undefined => isTrue rfl
  | null, null => isTrue rfl
  | bool a, bool b =>
    if h : a = b then isTrue (congrArg bool h) else isFalse (fun e => h (bool.inj e))
  | num a, num b =>
    if h : a = b then isTrue (congrArg num h) else isFalse (fun e => h (num.inj e))
  | str a, str b =>
    if h : a = b then isTrue (congrArg str h) else isFalse (fun e => h (str.inj e))
  | arr a, arr b =>
    match decEqList a b with
    | isTrue h => isTrue (congrArg arr h)
    | isFalse h => isFalse (fun e => h (arr.inj e))
  | obj a, obj b =>
    match decEqProps a b with
    | isTrue h => isTrue (congrArg obj h)
    | isFalse h => isFalse (fun e => h (obj.inj e))
  | undefined, null | undefined, bool _ | undefined, num _ | undefined, str _
  | undefined, arr _ | undefined, obj _
  | null, undefined | null, bool _ | null, num _ | null, str _ | null, arr _ | null, obj _
  | bool _, undefined | bool _, null | bool _, num _ | bool _, str _ | bool _, arr _
  | bool _, obj _
  | num _, undefined | num _, null | num _, bool _ | num _, str _ | num _, arr _ | num _, obj _
  | str _, undefined | str _, null | str _, bool _ | str _, num _ | str _, arr _ | str _, obj _
  | arr _, undefined | arr _, null | arr _, bool _ | arr _, num _ | arr _, str _ | arr _, obj _
  | obj _, undefined | obj _, null | obj _, bool _ | obj _, num _ | obj _, str _
  | obj _, arr _ => isFalse (fun e => JS.noConfusion e)
/-- Deciding the equality of two arrays. -/
def decEqList : (a b : List JS) → Decidable (a = b)
  | [], [] => isTrue rfl
  | [], _ :: _ => isFalse (fun e => List.noConfusion e)
  | _ :: _, [] => isFalse (fun e => List.noConfusion e)
  | x :: xs, y :: ys =>
    match decEq x y, decEqList xs ys with
    | isTrue h1, isTrue h2 => isTrue (by rw [h1, h2])
    | isFalse h1, _ => isFalse (fun e => h1 (List.cons.inj e).1)
    | _, isFalse h2 => isFalse (fun e => h2 (List.cons.inj e).2)
/-- Deciding the equality of two property lists. -/
def decEqProps : (a b : List (String × JS)) → Decidable (a = b)
  | [], [] => isTrue rfl
  | [], _ :: _ => isFalse (fun e => List.noConfusion e)
  | _ :: _, [] => isFalse (fun e => List.noConfusion e)
  | (k, x) :: xs, (l, y) :: ys =>
    if hk : k = l then
      match decEq x y, decEqProps xs ys with
      | isTrue h1, isTrue h2 => isTrue (by rw [hk, h1, h2])
      | isFalse h1, _ => isFalse (fun e => h1 (Prod.mk.inj (List.cons.inj e).1).2)
      | _, isFalse h2 => isFalse (fun e => h2 (List.cons.inj e).2)
    else isFalse (fun e => hk (Prod.mk.inj (List.cons.inj e).1).1)
end

instance : DecidableEq JS := decEq

/-- Own-property lookup: `some v` when `key in x`, for an object `x`. -/
def get? : JS → String → Option JS
  | obj props, key => props.lookup key
  | _, _ => none

/-- The property read `x.key`: `undefined` when the property is absent. -/
def get (x : JS) (key : String) : JS :=
  (x.get? key).getD undefined

/-- The element read `x[i]` of an array. -/
def index : JS → Nat → JS
  | arr items, i => items.getD i undefined
  | _, _ => undefined

/-- The read `x.length` of an array. -/
def length : JS → JS
  | arr items => num items.length
  | _ => undefined

/-- Writing one property into a property list: an existing key keeps its place. -/
def setProp (key : String) (v : JS) : List (String × JS) → List (String × JS)
  | [] => [(key, v)]
  | (k, w) :: rest => if k = key then (key, v) :: rest else (k, w) :: setProp key v rest

/-- The assignment `x.key = v`. -/
def set : JS → String → JS → JS
  | obj props, key, v => obj (setProp key v props)
  | x, _, _ => x

/-- The call `Object.assign(target, source)`: every property of `source` is written into
`target`. -/
def assign : JS → JS → JS
  | target, obj props => props.foldl (fun acc kv => acc.set kv.1 kv.2) target
  | target, _ => target

/-- The call `xs.every(f)` on an array. -/
def arrayEvery : JS → (JS → Bool) → Bool
  | arr items, f => items.all f
  | _, _ => false

/-- The call `xs.some(f)` on an array. -/
def arraySome : JS → (JS → Bool) → Bool
  | arr items, f => items.any f
  | _, _ => false

/-- The call `xs.map(f)` on an array. -/
def arrayMap : JS → (JS → JS) → JS
  | arr items, f => arr (items.map f)
  | _, _ => undefined

end JS

open JS (undefined null bool num str arr obj)

/-! ## The pattern matcher (utils/matchesAst) -/

/-- Modelled from the spec: the Match Result of section 3, "either a failure (no output) or a
success carrying a capture mapping". `none` is the `false` a matcher returns; `some m` is the
object of captured fields (`some (obj [])` also stands for a predicate's plain `true`). -/
abbrev MatchResult := Option JS

/-- Modelled from the spec: what may stand at a field of a pattern (section 4.1): a plain value,
a nested field-mapping, or a function. -/
inductive Pattern where
  | value (v : JS)
  | object (fields : List (String × Pattern))
  | function (f : JS → MatchResult)

/-- A predicate's boolean answer as a match result. -/
def ofBool (b : Bool) : MatchResult :=
  if b then some (obj []) else none

mutual
/-- Modelled from the spec: matching one value against one pattern (section 4.1). A plain value
matches only what equals it; a function matches iff it answers with a success, whose captures
are kept. -/
def matchValue : Pattern → JS → MatchResult
  | .value v, x => if x = v then some (obj []) else none
  | .object fields, x => matchFields fields x
  | .function f, x => f x
/-- Modelled from the spec: a field-mapping matches a node when every listed field is present
and matches its sub-pattern; fields not listed are unconstrained and a missing field is a
non-match. The capture mappings of the fields are merged. -/
def matchFields : List (String × Pattern) → JS → MatchResult
  | [], _ => some (obj [])
  | (key, p) :: rest, x =>
    match x.get? key with
    | none => none
    | some v =>
      match matchValue p v with
      | none => none
      | some found =>
        match matchFields rest x with
        | none => none
        | some others => some (found.assign others)
end

/-- Modelled from the spec: `matchesAst(pattern)` of utils/matchesAst, the function that
matches a node against a field-mapping and returns the captured fields. -/
def matchesAst (pattern : List (String × Pattern)) (ast : JS) : MatchResult :=
  matchFields pattern ast

/-- Modelled from the spec: `extract(fieldName, matcher)` of utils/matchesAst, the named
capture: when the inner pattern matches, the matched value is recorded under `fieldName`
next to the inner captures. -/
def extract (fieldName : String) (matcher : Pattern) (ast : JS) : MatchResult :=
  match matchValue matcher ast with
  | none => none
  | some result => some ((obj [(fieldName, ast)]).assign result)

/-- Modelled from the spec: `isString(node)` of utils/isString, "a string literal": a
`Literal` node whose value is a string. -/
def isString (node : JS) : Bool :=
  decide (node.get "type" = str "Literal") &&
    (match node.get "value" with
     | str _ => true
     | _ => false)

/-! ## The syntax constructors (src/syntax) -/

/-- Modelled from the spec: `new ImportDeclaration({specifiers, source})`, a node that
"carries an ordered sequence of specifiers and exactly one source module reference". -/
def ImportDeclaration (specifiers source : JS) : JS :=
  obj [("type", str "ImportDeclaration"), ("specifiers", specifiers), ("source", source)]

/-- Modelled from the spec: `new ImportSpecifier({local, imported})`, "a named specifier
pairing a local name with an imported name". -/
def ImportSpecifier (loc imported : JS) : JS :=
  obj [("type", str "ImportSpecifier"), ("local", loc), ("imported", imported)]

/-- Modelled from the spec: `new ImportDefaultSpecifier(local)`, "a default-binding specifier
pairing one local name with the module". -/
def ImportDefaultSpecifier (loc : JS) : JS :=
  obj [("type", str "ImportDefaultSpecifier"), ("local", loc)]

/-- Modelled from the spec: `new VariableDeclaration(kind, declarations)`, a declaration
statement of the given kind holding the given declarators. -/
def VariableDeclaration (kind declarations : JS) : JS :=
  obj [("type", str "VariableDeclaration"), ("kind", kind), ("declarations", declarations)]

/-! ## importCommonjs.js, lines 30 to 140 -/

/-- Source line 91: `matchesAst({type: 'Identifier'})`. -/
def isIdentifier : JS → MatchResult :=
  matchesAst [("type", .value (str "Identifier"))]

/-- Source line 96: matches a Property with Identifier key and value (possibly shorthand). -/
def isSimpleProperty : JS → MatchResult :=
  matchesAst [
    ("type", .value (str "Property")),
    ("key", .function isIdentifier),
    ("computed", .value (bool false)),
    ("value", .function isIdentifier)]

/-- Source line 104: matches `{a, b: myB, c, ...}`. -/
def isObjectPattern : JS → MatchResult :=
  matchesAst [
    ("type", .value (str "ObjectPattern")),
    ("properties", .function (fun props =>
      ofBool (props.arrayEvery (fun p => (isSimpleProperty p).isSome))))]

/-- Source line 110: matches `require(<source>)`. -/
def matchRequireCall : JS → MatchResult :=
  matchesAst [
    ("type", .value (str "CallExpression")),
    ("callee", .object [
      ("type", .value (str "Identifier")),
      ("name", .value (str "require"))]),
    ("arguments", .function (extract "sources" (.function (fun args =>
      ofBool (decide (args.length = num 1) && isString (args.index 0))))))]

/-- Source line 122: matches `<id> = require(<source>);`. -/
def matchRequire : JS → MatchResult :=
  matchesAst [
    ("type", .value (str "VariableDeclarator")),
    ("id", .function (extract "id" (.function (fun id =>
      (isIdentifier id).orElse (fun _ => isObjectPattern id))))),
    ("init", .function matchRequireCall)]

/-- Source line 129: matches `<id> = require(<source>).<property>;`. -/
def matchRequireWithProperty : JS → MatchResult :=
  matchesAst [
    ("type", .value (str "VariableDeclarator")),
    ("id", .function (extract "id" (.function isIdentifier))),
    ("init", .object [
      ("type", .value (str "MemberExpression")),
      ("computed", .value (bool false)),
      ("object", .function matchRequireCall),
      ("property", .function (extract "property" (.object [
        ("type", .value (str "Identifier"))])))])]

/-- Source line 79: a property named `default` gives a default specifier. -/
def createImportSpecifier (loc imported : JS) : JS :=
  if imported.get "name" = str "default" then
    ImportDefaultSpecifier loc
  else
    ImportSpecifier loc imported

/-- Source line 53: one specifier for each property of the pattern. -/
def patternToNamedImport (m : JS) : JS :=
  ImportDeclaration
    ((m.get "id").get "properties" |>.arrayMap (fun p =>
      createImportSpecifier (p.get "value") (p.get "key")))
    ((m.get "sources").index 0)

/-- Source line 65. -/
def identifierToDefaultImport (m : JS) : JS :=
  ImportDeclaration
    (arr [ImportDefaultSpecifier (m.get "id")])
    ((m.get "sources").index 0)

/-- Source line 72. -/
def propertyToNamedImport (m : JS) : JS :=
  ImportDeclaration
    (arr [createImportSpecifier (m.get "id") (m.get "property")])
    ((m.get "sources").index 0)

/-- Source line 32: converts a VariableDeclarator to an ImportDeclaration when it is
recognised as such, otherwise to a full VariableDeclaration of the original kind. The
function returns nothing (`undefined`) when `matchRequire` succeeds on an id that is neither
an ObjectPattern nor an Identifier. -/
def varToImport (dec kind : JS) : JS :=
  match matchRequire dec with
  | some m =>
    if (m.get "id").get "type" = str "ObjectPattern" then
      patternToNamedImport m
    else if (m.get "id").get "type" = str "Identifier" then
      identifierToDefaultImport m
    else
      undefined
  | none =>
    match matchRequireWithProperty dec with
    | some m =>
      if (m.get "property").get "name" = str "default" then
        identifierToDefaultImport m
      else
        propertyToNamedImport m
    | none => VariableDeclaration kind (arr [dec])

/-- Source line 86. -/
def isVarWithRequireCalls (node : JS) : Bool :=
  decide (node.get "type" = str "VariableDeclaration") &&
    (node.get "declarations").arraySome (fun dec =>
      (matchRequire dec).isSome || (matchRequireWithProperty dec).isSome)

/-! ## The enter handler (importCommonjs.js, lines 10 to 28) and its collaborators -/

/-- One call `logger.warn(node, message, category)`. -/
structure Warning where
  node : JS
  message : String
  category : String
  deriving DecidableEq

/-- What one run of the enter handler does to the outside world: nothing, one call of
`logger.warn`, or one call of `multiReplaceStatement` with the arguments shown. The handler
has no other effect and returns nothing. -/
inductive Effect where
  | nothing
  | warn (node : JS) (message category : String)
  | multiReplaceStatement (parent node replacements : JS) (preserveComments : Bool)
  deriving DecidableEq

/-- Source line 22: `node.declarations.map(dec => varToImport(dec, node.kind))`. -/
def replacements (node : JS) : JS :=
  (node.get "declarations").arrayMap (fun dec => varToImport dec (node.get "kind"))

/-- Source lines 12 to 26: the handler the traversal calls on entering `node` below
`parent`. -/
def enter (node parent : JS) : Effect :=
  if isVarWithRequireCalls node then
    if parent.get "type" ≠ str "Program" then
      .warn node "import can only be at root level" "commonjs"
    else
      .multiReplaceStatement parent node (replacements node) true
  else
    .nothing

/-- Modelled from the spec: the comments attached to the original statement "are copied onto
the first replacement statement". Comments are auxiliary metadata of a node, kept here in its
`comments` property. -/
def copyComments (src dst : JS) : JS :=
  match src.get? "comments" with
  | some comments => dst.set "comments" comments
  | none => dst

/-- Modelled from the spec: with `preserveComments` the comments of the original statement
go to the first replacement statement, when there is one. -/
def attachComments (node : JS) (preserveComments : Bool) : List JS → List JS
  | first :: rest =>
    if preserveComments then copyComments node first :: rest else first :: rest
  | [] => []

/-- Statement `i` of `body` gives way to the statements `reps`. -/
def splice (body : List JS) (i : Nat) (reps : List JS) : List JS :=
  body.take i ++ reps ++ body.drop (i + 1)

/-- Modelled from the spec: `multiReplaceStatement({parent, node, replacements,
preserveComments})` of utils/multiReplaceStatement: "the ordered list of replacement
statements is substituted for the single original statement at its original position in the
parent's body", the comments of the original going to the first replacement. The result is
the parent after the call; a node that is not in the body leaves it as it is. -/
def multiReplaceStatement (parent node replacements : JS) (preserveComments : Bool) : JS :=
  match parent.get "body", replacements with
  | arr body, arr reps =>
    if body.indexOf node < body.length then
      parent.set "body"
        (arr (splice body (body.indexOf node) (attachComments node preserveComments reps)))
    else
      parent
  | _, _ => parent

/-- The tree under rewrite together with the log of warnings. -/
abbrev World := JS × List Warning

/-- Modelled from the spec: carrying out an effect of the handler. `logger.warn` adds one
entry to the log (the diagnostic interface of section 6); `multiReplaceStatement` rewrites
the parent. -/
def perform : Effect → World → World
  | .nothing, w => w
  | .warn node message category, (tree, log) => (tree, log ++ [⟨node, message, category⟩])
  | .multiReplaceStatement parent node reps keep, (_, log) =>
    (multiReplaceStatement parent node reps keep, log)

/-- Modelled from the spec: what the traversal takes for a node, an object tagged with a
`type`. -/
def isNode (x : JS) : Bool :=
  match x.get "type" with
  | str _ => true
  | _ => false

/-- Modelled from the spec: the nodes held by one property value, the value itself or the
elements of an array. -/
def childrenOfValue : JS → List JS
  | arr items => items.filter isNode
  | v => if isNode v then [v] else []

/-- Modelled from the spec: the child nodes of a node, in the order the traversal meets
them. -/
def children : JS → List JS
  | obj props => props.flatMap (fun kv => childrenOfValue kv.2)
  | _ => []

mutual
/-- Modelled from the spec: the warnings raised while the traversal walks the nodes strictly
below `node`, each entered once with its own parent. Below the children of the root an ESTree
has no node whose parent is the Program, so there the handler of this transform can only warn
or do nothing and the walk keeps the log. -/
def warningsInside (handler : JS → JS → Effect) : JS → List Warning
  | obj props => warningsInProps handler (obj props) props
  | _ => []
/-- Modelled from the spec: the walk through the properties of `parent`. -/
def warningsInProps (handler : JS → JS → Effect) (parent : JS) :
    List (String × JS) → List Warning
  | [] => []
  | (_, arr items) :: rest =>
    warningsInItems handler parent items ++ warningsInProps handler parent rest
  | (_, v) :: rest =>
    (if isNode v then
      (perform (handler v parent) (parent, [])).2 ++ warningsInside handler v
    else []) ++
      warningsInProps handler parent rest
/-- Modelled from the spec: the walk through the elements of an array property of
`parent`. -/
def warningsInItems (handler : JS → JS → Effect) (parent : JS) : List JS → List Warning
  | [] => []
  | x :: xs =>
    (if isNode x then
      (perform (handler x parent) (parent, [])).2 ++ warningsInside handler x
    else []) ++
      warningsInItems handler parent xs
end

/-- Modelled from the spec: the traversal enters a child of the root with the root, as it is
by then, for parent; the handler's effect is carried out and the walk goes on below the
child as it was on entry. -/
def visitChild (handler : JS → JS → Effect) (w : World) (child : JS) : World :=
  let w1 := perform (handler child w.1) w
  (w1.1, w1.2 ++ warningsInside handler child)

/-- Modelled from the spec: `traverser.replace(ast, {enter})`, the "visit with replace"
capability of the traversal driver: every node is entered once, parents before children, the
children of a node being the ones it has when it is entered. The root is entered first; no
Program stands above it, and the handler is given the root itself for parent. The result is
the tree after the run and the warnings logged. -/
def traverser.replace (ast : JS) (handler : JS → JS → Effect) : World :=
  (children ast).foldl (visitChild handler) (perform (handler ast ast) (ast, []))

/-- Source lines 10 to 28, the default export: the traversal run with the enter handler. -/
def transform (ast : JS) : World :=
  traverser.replace ast enter

/-! ## Example trees -/

/-- The identifier `name`. -/
def identifier (name : String) : JS :=
  obj [("type", str "Identifier"), ("name", str name)]

/-- The string literal `'value'`. -/
def stringLiteral (value : String) : JS :=
  obj [("type", str "Literal"), ("value", str value)]

/-- The number literal `n`. -/
def numberLiteral (n : Int) : JS :=
  obj [("type", str "Literal"), ("value", num n)]

/-- The call `require('source')`. -/
def requireCall (source : String) : JS :=
  obj [("type", str "CallExpression"), ("callee", identifier "require"),
    ("arguments", arr [stringLiteral source])]

/-- The member access `object.property`. -/
def member (object : JS) (property : String) : JS :=
  obj [("type", str "MemberExpression"), ("computed", bool false), ("object", object),
    ("property", identifier property)]

/-- The declarator `id = init`. -/
def declarator (id init : JS) : JS :=
  obj [("type", str "VariableDeclarator"), ("id", id), ("init", init)]

/-- The property `key: value` of an object pattern. -/
def property (key value : String) : JS :=
  obj [("type", str "Property"), ("key", identifier key), ("computed", bool false),
    ("value", identifier value), ("kind", str "init"), ("shorthand", bool (key == value))]

/-- The object pattern with the given properties. -/
def objectPattern (props : List JS) : JS :=
  obj [("type", str "ObjectPattern"), ("properties", arr props)]

/-- The statement `const <declarators>;`. -/
def constDeclaration (declarators : List JS) : JS :=
  obj [("type", str "VariableDeclaration"), ("declarations", arr declarators),
    ("kind", str "const")]

/-- The program with the given statements. -/
def program (body : List JS) : JS :=
  obj [("type", str "Program"), ("body", arr body), ("sourceType", str "module")]

/-- The statement `if (test) { <body> }`. -/
def ifBlock (test : JS) (body : List JS) : JS :=
  obj [("type", str "IfStatement"), ("test", test),
    ("consequent", obj [("type", str "BlockStatement"), ("body", arr body)]),
    ("alternate", null)]

/-! ## The shapes the claims speak about, stated on the tree itself -/

/-- The node is an Identifier. -/
def IsIdentifierNode (x : JS) : Prop :=
  x.get? "type" = some (str "Identifier")

/-- The node is a string literal. -/
def IsStringLiteral (x : JS) : Prop :=
  x.get "type" = str "Literal" ∧ ∃ s, x.get "value" = str s

/-- The node `dec` is a VariableDeclarator with the given id and init. -/
def IsDeclarator (dec id init : JS) : Prop :=
  dec.get? "type" = some (str "VariableDeclarator") ∧
  dec.get? "id" = some id ∧
  dec.get? "init" = some init

/-- The node `init` is a call of the identifier `require` whose argument list is the one
string literal `source`. -/
def IsRequireCall (init source : JS) : Prop :=
  init.get? "type" = some (str "CallExpression") ∧
  (init.get "callee").get? "type" = some (str "Identifier") ∧
  (init.get "callee").get? "name" = some (str "require") ∧
  init.get? "arguments" = some (arr [source]) ∧
  IsStringLiteral source

/-- The node `init` is the member access `require(source).property`, not computed, with an
Identifier as property. -/
def IsRequireMember (init property source : JS) : Prop :=
  init.get? "type" = some (str "MemberExpression") ∧
  init.get? "computed" = some (bool false) ∧
  IsRequireCall (init.get "object") source ∧
  init.get? "property" = some property ∧
  IsIdentifierNode property

/-- The node is a simple property: Identifier key, not computed, Identifier value. -/
def IsSimplePropertyNode (p : JS) : Prop :=
  p.get? "type" = some (str "Property") ∧
  IsIdentifierNode (p.get "key") ∧
  p.get? "computed" = some (bool false) ∧
  IsIdentifierNode (p.get "value")

/-- The node `id` is an ObjectPattern whose properties are the simple properties `props`. -/
def IsSimpleObjectPattern (id : JS) (props : List JS) : Prop :=
  id.get? "type" = some (str "ObjectPattern") ∧
  id.get? "properties" = some (arr props) ∧
  ∀ p ∈ props, IsSimplePropertyNode p

/-- The node is a candidate for the rewrite: a VariableDeclaration with at least one
declarator that `matchRequire` or `matchRequireWithProperty` accepts. -/
def IsCandidate (node : JS) : Prop :=
  node.get "type" = str "VariableDeclaration" ∧
  ∃ decs, node.get "declarations" = arr decs ∧
    ∃ d ∈ decs, matchRequire d ≠ none ∨ matchRequireWithProperty d ≠ none

/-- No statement of the list is a candidate for the rewrite. -/
def NoCandidate (l : List JS) : Prop :=
  ∀ x ∈ l, isVarWithRequireCalls x = false

/-- The tree after the handler's effect on entering the child `c` of the root `t`. -/
def treeStep (t c : JS) : JS :=
  (perform (enter c t) (t, [])).1

/-- Every candidate occurs in the body of `t` at most as often as in `cs`. -/
def Covered (t : JS) (cs : List JS) : Prop :=
  ∀ b, t.get "body" = arr b → ∀ x, isVarWithRequireCalls x = true → b.count x ≤ cs.count x

/-! ## Definitions for the claims on bindings, matcher order and the rewritten body -/

/-- The identifiers a declarator id binds, in order: the id itself when it is an Identifier,
the values of the properties when it is an ObjectPattern. -/
def boundIdentifiers (id : JS) : List JS :=
  if id.get "type" = str "Identifier" then
    [id]
  else if id.get "type" = str "ObjectPattern" then
    match id.get "properties" with
    | arr props => props.map (fun p => p.get "value")
    | _ => []
  else
    []

/-- The argument handed to `require` in an init: argument 0 of the call when the init is the
call, argument 0 of the call under the member access otherwise. -/
def requiredSource (init : JS) : JS :=
  if init.get "type" = str "CallExpression" then
    (init.get "arguments").index 0
  else
    ((init.get "object").get "arguments").index 0

/-- The locals of the specifiers of an import declaration, in order. -/
def specifierLocals (declaration : JS) : List JS :=
  match declaration.get "specifiers" with
  | arr specs => specs.map (fun s => s.get "local")
  | _ => []

/-- The function `varToImport` with its two matchers tried in the other order:
`matchRequireWithProperty` first, `matchRequire` second. -/
def varToImportSwapped (dec kind : JS) : JS :=
  match matchRequireWithProperty dec with
  | some m =>
    if (m.get "property").get "name" = str "default" then
      identifierToDefaultImport m
    else
      propertyToNamedImport m
  | none =>
    match matchRequire dec with
    | some m =>
      if (m.get "id").get "type" = str "ObjectPattern" then
        patternToNamedImport m
      else if (m.get "id").get "type" = str "Identifier" then
        identifierToDefaultImport m
      else
        undefined
    | none => VariableDeclaration kind (arr [dec])

/-- The statements a run leaves in the place of the statement `s` of the root body: the
replacements of a candidate, the comments of `s` on the first of them, and `s` itself
otherwise. -/
def rewrittenStatement (s : JS) : List JS :=
  if isVarWithRequireCalls s then
    match replacements s with
    | arr reps => attachComments s true reps
    | _ => [s]
  else
    [s]

/-- The call `callee(args)`. -/
def callExpression (callee : JS) (args : List JS) : JS :=
  obj [("type", str "CallExpression"), ("callee", callee), ("arguments", arr args)]

/-- The computed member access `object['name']`. -/
def computedMember (object : JS) (name : String) : JS :=
  obj [("type", str "MemberExpression"), ("computed", bool true), ("object", object),
    ("property", stringLiteral name)]

/-- The property `key: {inner}` of an object pattern, a nested pattern. -/
def nestedProperty (key inner : String) : JS :=
  obj [("type", str "Property"), ("key", identifier key), ("computed", bool false),
    ("value", objectPattern [property inner inner]), ("kind", str "init"),
    ("shorthand", bool false)]

/-- The line comment `// text`. -/
def lineComment (text : String) : JS :=
  obj [("type", str "Line"), ("value", str text)]

/-- The node with the given comments attached to it. -/
def withComments (node : JS) (comments : List JS) : JS :=
  node.set "comments" (arr comments)

/-! ## Lemmas on the matchers -/

theorem get?_obj (props : List (String × JS)) (k : String) :
    (obj props).get? k = props.lookup k := rfl

theorem get_obj (props : List (String × JS)) (k : String) :
    (obj props).get k = (props.lookup k).getD undefined := rfl

theorem get?_of_get_get? {x y : JS} {k l : String} (h : (x.get k).get? l = some y) :
    x.get? k = some (x.get k) := by
  unfold JS.get at h ⊢
  cases hx : x.get? k with
  | none => rw [hx] at h; simp [JS.get?] at h
  | some v => simp

theorem get_of_get? {x y : JS} {k : String} (h : x.get? k = some y) : x.get k = y := by
  simp [JS.get, h]

theorem isString_of {x : JS} (h : IsStringLiteral x) : isString x = true := by
  obtain ⟨h1, s, h2⟩ := h
  simp [isString, h1, h2]

theorem isIdentifier_of {x : JS} (h : IsIdentifierNode x) : isIdentifier x = some (obj []) := by
  unfold IsIdentifierNode at h
  simp [isIdentifier, matchesAst, matchFields, matchValue, h, JS.assign]

theorem isSimpleProperty_of {p : JS} (h : IsSimplePropertyNode p) :
    isSimpleProperty p = some (obj []) := by
  obtain ⟨h1, h2, h3, h4⟩ := h
  have hk := get?_of_get_get? h2
  have hv := get?_of_get_get? h4
  simp [isSimpleProperty, matchesAst, matchFields, matchValue, h1, h3, hk, hv,
    isIdentifier_of h2, isIdentifier_of h4, JS.assign]

theorem isObjectPattern_of {id : JS} {props : List JS} (h : IsSimpleObjectPattern id props) :
    isObjectPattern id = some (obj []) := by
  obtain ⟨h1, h2, h3⟩ := h
  have hall : props.all (fun p => (isSimpleProperty p).isSome) = true := by
    rw [List.all_eq_true]
    intro p hp
    simp [isSimpleProperty_of (h3 p hp)]
  simp [isObjectPattern, matchesAst, matchFields, matchValue, h1, h2, JS.arrayEvery, ofBool,
    hall, JS.assign]

theorem matchRequireCall_of {init source : JS} (h : IsRequireCall init source) :
    matchRequireCall init = some (obj [("sources", arr [source])]) := by
  obtain ⟨h1, h2, h3, h4, h5⟩ := h
  have hc := get?_of_get_get? h2
  simp [matchRequireCall, matchesAst, matchFields, matchValue, extract, ofBool, h1, h2, h3, h4,
    hc, isString_of h5, JS.assign, JS.set, JS.setProp, JS.length, JS.index]

theorem matchRequire_identifier {dec id init source : JS} (hdec : IsDeclarator dec id init)
    (hid : IsIdentifierNode id) (hinit : IsRequireCall init source) :
    matchRequire dec = some (obj [("id", id), ("sources", arr [source])]) := by
  obtain ⟨h1, h2, h3⟩ := hdec
  simp [matchRequire, matchesAst, matchFields, matchValue, extract, h1, h2, h3,
    isIdentifier_of hid, matchRequireCall_of hinit, JS.assign, JS.set, JS.setProp]

theorem matchRequire_pattern {dec id init source : JS} {props : List JS}
    (hdec : IsDeclarator dec id init) (hid : IsSimpleObjectPattern id props)
    (hinit : IsRequireCall init source) :
    matchRequire dec = some (obj [("id", id), ("sources", arr [source])]) := by
  obtain ⟨h1, h2, h3⟩ := hdec
  have hni : isIdentifier id = none := by
    simp [isIdentifier, matchesAst, matchFields, matchValue, hid.1]
  simp [matchRequire, matchesAst, matchFields, matchValue, extract, h1, h2, h3, hni,
    isObjectPattern_of hid, matchRequireCall_of hinit, JS.assign, JS.set, JS.setProp]

theorem matchRequire_member {dec id init property source : JS} (hdec : IsDeclarator dec id init)
    (hinit : IsRequireMember init property source) : matchRequire dec = none := by
  obtain ⟨h1, h2, h3⟩ := hdec
  have hcall : matchRequireCall init = none := by
    simp [matchRequireCall, matchesAst, matchFields, matchValue, hinit.1]
  simp only [matchRequire, matchesAst, matchFields, matchValue, h1, h2, h3, hcall]
  cases extract "id" (Pattern.function fun id =>
    Option.orElse (isIdentifier id) fun _ => isObjectPattern id) id <;> simp

theorem matchRequireWithProperty_of {dec id init property source : JS}
    (hdec : IsDeclarator dec id init) (hid : IsIdentifierNode id)
    (hinit : IsRequireMember init property source) :
    matchRequireWithProperty dec =
      some (obj [("id", id), ("sources", arr [source]), ("property", property)]) := by
  obtain ⟨h1, h2, h3⟩ := hdec
  obtain ⟨g1, g2, g3, g4, g5⟩ := hinit
  have ho := get?_of_get_get? g3.1
  have hp : property.get? "type" = some (str "Identifier") := g5
  simp [matchRequireWithProperty, matchesAst, matchFields, matchValue, extract, h1, h2, h3,
    g1, g2, g4, ho, hp, isIdentifier_of hid, matchRequireCall_of g3, JS.assign, JS.set,
    JS.setProp]

theorem varToImport_pattern {dec kind id init source : JS} {props : List JS}
    (hdec : IsDeclarator dec id init) (hid : IsSimpleObjectPattern id props)
    (hinit : IsRequireCall init source) :
    varToImport dec kind =
      ImportDeclaration
        (arr (props.map (fun p => createImportSpecifier (p.get "value") (p.get "key"))))
        source := by
  have ht := get_of_get? hid.1
  have hp := get_of_get? hid.2.1
  simp [varToImport, matchRequire_pattern hdec hid hinit, patternToNamedImport, get_obj, ht, hp,
    JS.index, JS.arrayMap, List.lookup]

theorem varToImport_identifier {dec kind id init source : JS}
    (hdec : IsDeclarator dec id init) (hid : IsIdentifierNode id)
    (hinit : IsRequireCall init source) :
    varToImport dec kind = ImportDeclaration (arr [ImportDefaultSpecifier id]) source := by
  have ht := get_of_get? hid
  simp [varToImport, matchRequire_identifier hdec hid hinit, identifierToDefaultImport, get_obj,
    ht, JS.index, List.lookup]

theorem varToImport_member {dec kind id init property source : JS}
    (hdec : IsDeclarator dec id init) (hid : IsIdentifierNode id)
    (hinit : IsRequireMember init property source) :
    varToImport dec kind =
      ImportDeclaration (arr [createImportSpecifier id property]) source := by
  simp only [varToImport, matchRequire_member hdec hinit,
    matchRequireWithProperty_of hdec hid hinit]
  by_cases hn : property.get "name" = str "default"
  · simp [identifierToDefaultImport, propertyToNamedImport, createImportSpecifier, get_obj,
      hn, JS.index, List.lookup]
  · simp [identifierToDefaultImport, propertyToNamedImport, createImportSpecifier, get_obj,
      hn, JS.index, List.lookup]

/-! ## Lemmas on property writes -/

theorem lookup_setProp_ne {k key : String} (v : JS) (h : k ≠ key) (props : List (String × JS)) :
    List.lookup k (JS.setProp key v props) = List.lookup k props := by
  have hb : (k == key) = false := by simpa using h
  induction props with
  | nil => simp [JS.setProp, List.lookup, hb]
  | cons p rest ih =>
    obtain ⟨l, w⟩ := p
    by_cases hl : l = key
    · subst hl
      simp [JS.setProp, List.lookup, hb]
    · simp only [JS.setProp, hl, if_false, List.lookup, ih]

theorem lookup_setProp_eq (key : String) (v : JS) (props : List (String × JS)) :
    List.lookup key (JS.setProp key v props) = some v := by
  induction props with
  | nil => simp [JS.setProp, List.lookup]
  | cons p rest ih =>
    obtain ⟨l, w⟩ := p
    by_cases hl : l = key
    · subst hl
      simp [JS.setProp, List.lookup]
    · have hb : (key == l) = false := by simpa using fun e => hl e.symm
      simp [JS.setProp, hl, hb, List.lookup, ih]

theorem get_set_ne {k key : String} (x v : JS) (h : k ≠ key) :
    (x.set key v).get k = x.get k := by
  cases x <;> simp [JS.set, JS.get, JS.get?, lookup_setProp_ne v h]

theorem get_set_eq (props : List (String × JS)) (key : String) (v : JS) :
    ((obj props).set key v).get key = v := by
  simp [JS.set, JS.get, JS.get?, lookup_setProp_eq]

/-! ## Lemmas on candidates -/

theorem isVarWithRequireCalls_congr {x y : JS} (ht : x.get "type" = y.get "type")
    (hd : x.get "declarations" = y.get "declarations") :
    isVarWithRequireCalls x = isVarWithRequireCalls y := by
  simp [isVarWithRequireCalls, ht, hd]

theorem isVarWithRequireCalls_copyComments (src dst : JS) :
    isVarWithRequireCalls (copyComments src dst) = isVarWithRequireCalls dst := by
  unfold copyComments
  cases src.get? "comments" with
  | none => rfl
  | some c =>
    exact isVarWithRequireCalls_congr (get_set_ne dst c (by decide))
      (get_set_ne dst c (by decide))

theorem isNode_of_isVarWithRequireCalls {x : JS} (h : isVarWithRequireCalls x = true) :
    isNode x = true := by
  simp [isVarWithRequireCalls] at h
  simp [isNode, h.1]

theorem isVarWithRequireCalls_varToImport (dec kind : JS) :
    isVarWithRequireCalls (varToImport dec kind) = false := by
  unfold varToImport
  cases h1 : matchRequire dec with
  | some m =>
    simp only
    split
    · simp [isVarWithRequireCalls, patternToNamedImport, ImportDeclaration, get_obj, List.lookup]
    · split
      · simp [isVarWithRequireCalls, identifierToDefaultImport, ImportDeclaration, get_obj,
          List.lookup]
      · simp [isVarWithRequireCalls, JS.get, JS.get?]
  | none =>
    simp only
    cases h2 : matchRequireWithProperty dec with
    | some m =>
      simp only
      split
      · simp [isVarWithRequireCalls, identifierToDefaultImport, ImportDeclaration, get_obj,
          List.lookup]
      · simp [isVarWithRequireCalls, propertyToNamedImport, ImportDeclaration, get_obj,
          List.lookup]
    | none =>
      simp [isVarWithRequireCalls, VariableDeclaration, get_obj, List.lookup, JS.arraySome,
        h1, h2]

theorem noCandidate_replacements {node : JS} {reps : List JS}
    (h : replacements node = arr reps) : NoCandidate reps := by
  unfold replacements at h
  cases hd : node.get "declarations" <;> rw [hd] at h <;> simp [JS.arrayMap] at h
  subst h
  intro x hx
  simp only [List.mem_map] at hx
  obtain ⟨d, _, rfl⟩ := hx
  exact isVarWithRequireCalls_varToImport d _

theorem noCandidate_attachComments (node : JS) {reps : List JS} (keep : Bool)
    (h : NoCandidate reps) : NoCandidate (attachComments node keep reps) := by
  cases reps with
  | nil => exact h
  | cons first rest =>
    cases keep with
    | false => exact h
    | true =>
      intro x hx
      simp only [attachComments, if_true, List.mem_cons] at hx
      rcases hx with rfl | hx
      · rw [isVarWithRequireCalls_copyComments]
        exact h first (List.mem_cons_self _ _)
      · exact h x (List.mem_cons_of_mem _ hx)

/-! ## Lemmas on the traversal -/

theorem perform_fst (e : Effect) (t : JS) (log : List Warning) :
    (perform e (t, log)).1 = (perform e (t, [])).1 := by
  cases e <;> rfl

theorem visitChild_fst (w : World) (c : JS) : (visitChild enter w c).1 = treeStep w.1 c := by
  obtain ⟨t, log⟩ := w
  simp only [visitChild, treeStep]
  exact perform_fst _ _ _

theorem foldl_visitChild_fst (cs : List JS) (w : World) :
    (cs.foldl (visitChild enter) w).1 = cs.foldl treeStep w.1 := by
  induction cs generalizing w with
  | nil => rfl
  | cons c cs ih => simp only [List.foldl_cons, ih, visitChild_fst]

theorem treeStep_of_not_candidate {t c : JS} (h : isVarWithRequireCalls c = false) :
    treeStep t c = t := by
  simp [treeStep, enter, h, perform]

theorem treeStep_of_not_program {t c : JS} (h : t.get "type" ≠ str "Program") :
    treeStep t c = t := by
  cases hc : isVarWithRequireCalls c <;> simp [treeStep, enter, hc, h, perform]

theorem treeStep_of_candidate {t c : JS} (hc : isVarWithRequireCalls c = true)
    (h : t.get "type" = str "Program") :
    treeStep t c = multiReplaceStatement t c (replacements c) true := by
  simp [treeStep, enter, hc, h, perform]

theorem transform_fst (ast : JS) : (transform ast).1 = (children ast).foldl treeStep ast := by
  unfold transform traverser.replace
  rw [foldl_visitChild_fst]
  congr 1
  cases hc : isVarWithRequireCalls ast with
  | false => simp [enter, hc, perform]
  | true =>
    have ht : ast.get "type" = str "VariableDeclaration" := by
      simp [isVarWithRequireCalls] at hc
      exact hc.1
    simp [enter, hc, ht, perform]

theorem multiReplaceStatement_type (p n r : JS) (k : Bool) :
    (multiReplaceStatement p n r k).get "type" = p.get "type" := by
  unfold multiReplaceStatement
  split
  · split
    · exact get_set_ne _ _ (by decide)
    · rfl
  · rfl

theorem treeStep_type (t c : JS) : (treeStep t c).get "type" = t.get "type" := by
  by_cases h : t.get "type" = str "Program"
  · cases hc : isVarWithRequireCalls c with
    | false => rw [treeStep_of_not_candidate hc]
    | true => rw [treeStep_of_candidate hc h, multiReplaceStatement_type]
  · rw [treeStep_of_not_program h]

theorem replacements_of_candidate {c : JS} (hc : isVarWithRequireCalls c = true) :
    ∃ reps, replacements c = arr reps := by
  unfold replacements
  cases hd : c.get "declarations" <;>
    simp [isVarWithRequireCalls, hd, JS.arraySome] at hc
  exact ⟨_, rfl⟩

theorem treeStep_cases {t c : JS} (hc : isVarWithRequireCalls c = true)
    (h : t.get "type" = str "Program") :
    (treeStep t c = t ∧ ∀ b, t.get "body" = arr b → c ∉ b) ∨
      ∃ b reps, t.get "body" = arr b ∧ NoCandidate reps ∧ c ∈ b ∧
        treeStep t c = t.set "body" (arr (splice b (b.indexOf c) reps)) := by
  rw [treeStep_of_candidate hc h]
  unfold multiReplaceStatement
  split
  · rename_i b reps hb hr
    split
    · rename_i hlt
      right
      exact ⟨b, _, hb, noCandidate_attachComments c true (noCandidate_replacements hr),
        List.indexOf_lt_length.mp hlt, rfl⟩
    · rename_i hlt
      left
      refine ⟨rfl, ?_⟩
      intro b2 hb2 hmem
      rw [hb] at hb2
      cases hb2
      exact hlt (List.indexOf_lt_length.mpr hmem)
  · rename_i hno
    left
    refine ⟨rfl, ?_⟩
    intro b hb
    obtain ⟨reps, hr⟩ := replacements_of_candidate hc
    exact absurd hr (hno b reps hb)

theorem treeStep_of_not_mem {t c : JS} (h : ∀ b, t.get "body" = arr b → c ∉ b) :
    treeStep t c = t := by
  by_cases hp : t.get "type" = str "Program"
  · cases hc : isVarWithRequireCalls c with
    | false => exact treeStep_of_not_candidate hc
    | true =>
      rcases treeStep_cases hc hp with h1 | ⟨b, reps, hb, _, hmem, _⟩
      · exact h1.1
      · exact absurd hmem (h b hb)
  · exact treeStep_of_not_program hp

theorem count_splice {b reps : List JS} {c x : JS} (hmem : c ∈ b) (hx : reps.count x = 0) :
    (splice b (b.indexOf c) reps).count x + [c].count x = b.count x := by
  induction b with
  | nil => simp at hmem
  | cons s rest ih =>
    by_cases hs : s = c
    · subst hs
      simp [splice, List.count_append, hx, List.count_cons]
    · have hmem2 : c ∈ rest := by
        rcases List.mem_cons.mp hmem with h | h
        · exact absurd h.symm hs
        · exact h
      have hi : (s :: rest).indexOf c = rest.indexOf c + 1 := List.indexOf_cons_ne _ hs
      have ih2 := ih hmem2
      rw [hi]
      simp only [splice, List.take_succ_cons, List.drop_succ_cons, List.cons_append,
        List.count_cons] at ih2 ⊢
      omega

theorem covered_step {t c : JS} {cs : List JS} (hp : t.get "type" = str "Program")
    (h : Covered t (c :: cs)) : Covered (treeStep t c) cs := by
  cases hc : isVarWithRequireCalls c with
  | false =>
    rw [treeStep_of_not_candidate hc]
    intro b hb x hx
    have hne : x ≠ c := by
      intro e
      rw [← e, hx] at hc
      exact Bool.noConfusion hc
    have h2 := h b hb x hx
    rw [List.count_cons_of_ne hne] at h2
    exact h2
  | true =>
    rcases treeStep_cases hc hp with ⟨h1, hno⟩ | ⟨b, reps, hb, hreps, hmem, heq⟩
    · rw [h1]
      intro b hb x hx
      have h2 := h b hb x hx
      by_cases hxc : x = c
      · subst hxc
        have : b.count x = 0 := List.count_eq_zero.mpr (hno b hb)
        omega
      · rw [List.count_cons_of_ne hxc] at h2
        exact h2
    · intro b2 hb2 x hx
      have hobj : ∃ ps, t = obj ps := by
        cases t <;> simp [JS.get, JS.get?] at hb
        exact ⟨_, rfl⟩
      obtain ⟨ps, rfl⟩ := hobj
      rw [heq, get_set_eq] at hb2
      cases hb2
      have hcount : reps.count x = 0 := by
        rw [List.count_eq_zero]
        intro hin
        have := hreps x hin
        rw [hx] at this
        exact Bool.noConfusion this
      have h1 := count_splice (c := c) hmem hcount
      have h2 := h b hb x hx
      simp only [List.count_cons] at h1 h2
      omega

theorem covered_foldl (cs : List JS) {t : JS} (hp : t.get "type" = str "Program")
    (h : Covered t cs) : Covered (cs.foldl treeStep t) [] := by
  induction cs generalizing t with
  | nil => exact h
  | cons c cs ih =>
    rw [List.foldl_cons]
    exact ih (by rw [treeStep_type, hp]) (covered_step hp h)

theorem count_le_children {k : String} {b : List JS} {x : JS} (hx : isNode x = true)
    (props : List (String × JS)) (h : List.lookup k props = some (arr b)) :
    b.count x ≤ (props.flatMap (fun kv => childrenOfValue kv.2)).count x := by
  induction props with
  | nil => simp [List.lookup] at h
  | cons p rest ih =>
    obtain ⟨l, v⟩ := p
    rw [List.flatMap_cons, List.count_append]
    cases hkl : (k == l) with
    | true =>
      simp only [List.lookup, hkl] at h
      cases h
      simp only [childrenOfValue]
      rw [List.count_filter hx]
      omega
    | false =>
      simp only [List.lookup, hkl] at h
      have := ih h
      omega

theorem covered_children (ast : JS) : Covered ast (children ast) := by
  intro b hb x hx
  cases ast <;> simp [JS.get, JS.get?] at hb
  rename_i props
  have hl : List.lookup "body" props = some (arr b) := by
    cases hlk : List.lookup "body" props with
    | none => rw [hlk] at hb; simp at hb
    | some v => rw [hlk] at hb; simp at hb; rw [hb]
  exact count_le_children (isNode_of_isVarWithRequireCalls hx) props hl

theorem noCandidate_of_covered {t : JS} (h : Covered t []) {b : List JS}
    (hb : t.get "body" = arr b) : NoCandidate b := by
  intro x hx
  cases hc : isVarWithRequireCalls x with
  | false => rfl
  | true =>
    have := h b hb x hc
    simp only [List.count_nil, Nat.le_zero, List.count_eq_zero] at this
    exact absurd hx this

theorem foldl_treeStep_fixed (cs : List JS) {t : JS}
    (h : t.get "type" ≠ str "Program" ∨ ∀ b, t.get "body" = arr b → NoCandidate b) :
    cs.foldl treeStep t = t := by
  induction cs with
  | nil => rfl
  | cons c cs ih =>
    have hstep : treeStep t c = t := by
      rcases h with h | h
      · exact treeStep_of_not_program h
      · cases hc : isVarWithRequireCalls c with
        | false => exact treeStep_of_not_candidate hc
        | true =>
          apply treeStep_of_not_mem
          intro b hb hmem
          have := h b hb c hmem
          rw [hc] at this
          exact Bool.noConfusion this
    rw [List.foldl_cons, hstep, ih]

theorem foldl_treeStep_type (cs : List JS) (t : JS) :
    (cs.foldl treeStep t).get "type" = t.get "type" := by
  induction cs generalizing t with
  | nil => rfl
  | cons c cs ih => rw [List.foldl_cons, ih, treeStep_type]

theorem transform_body_noCandidate {ast : JS} (hp : ast.get "type" = str "Program")
    {b : List JS} (hb : (transform ast).1.get "body" = arr b) : NoCandidate b := by
  rw [transform_fst] at hb
  exact noCandidate_of_covered (covered_foldl _ hp (covered_children ast)) hb

theorem transform_idempotent_tree (ast : JS) :
    (transform (transform ast).1).1 = (transform ast).1 := by
  rw [transform_fst (transform ast).1]
  apply foldl_treeStep_fixed
  by_cases hp : ast.get "type" = str "Program"
  · right
    intro b hb
    exact transform_body_noCandidate hp hb
  · left
    rw [transform_fst, foldl_treeStep_type]
    exact hp

theorem isIdentifier_inv {x r : JS} (h : isIdentifier x = some r) :
    IsIdentifierNode x ∧ r = obj [] := by
  unfold IsIdentifierNode
  simp only [isIdentifier, matchesAst, matchFields, matchValue] at h
  cases hx : x.get? "type" with
  | none => simp [hx] at h
  | some v =>
    simp only [hx] at h
    by_cases hv : v = str "Identifier"
    · subst hv
      simp [JS.assign] at h
      exact ⟨rfl, h.symm⟩
    · simp [hv] at h

theorem isObjectPattern_inv {x r : JS} (h : isObjectPattern x = some r) :
    x.get? "type" = some (str "ObjectPattern") ∧ r = obj [] := by
  simp only [isObjectPattern, matchesAst, matchFields, matchValue] at h
  cases hx : x.get? "type" with
  | none => simp [hx] at h
  | some v =>
    simp only [hx] at h
    by_cases hv : v = str "ObjectPattern"
    · subst hv
      cases hp : x.get? "properties" with
      | none => simp [hp] at h
      | some ps =>
        simp only [hp, if_true] at h
        cases hb : JS.arrayEvery ps (fun p => (isSimpleProperty p).isSome) with
        | false => simp [hb, ofBool] at h
        | true =>
          simp [hb, ofBool, JS.assign] at h
          exact ⟨rfl, h.symm⟩
    · simp [hv] at h

theorem matchRequireCall_inv {x r : JS} (h : matchRequireCall x = some r) :
    ∃ args, r = obj [("sources", args)] := by
  simp only [matchRequireCall, matchesAst, matchFields, matchValue] at h
  cases hx : x.get? "type" with
  | none => simp [hx] at h
  | some v =>
    simp only [hx] at h
    by_cases hv : v = str "CallExpression"
    · subst hv
      simp only [if_true] at h
      cases hc : x.get? "callee" with
      | none => simp [hc] at h
      | some callee =>
        simp only [hc] at h
        cases hct : callee.get? "type" with
        | none => simp [hct] at h
        | some ct =>
          simp only [hct] at h
          by_cases hctv : ct = str "Identifier"
          · subst hctv
            simp only [if_true] at h
            cases hcn : callee.get? "name" with
            | none => simp [hcn] at h
            | some cn =>
              simp only [hcn] at h
              by_cases hcnv : cn = str "require"
              · subst hcnv
                simp only [if_true] at h
                cases ha : x.get? "arguments" with
                | none => simp [ha] at h
                | some args =>
                  simp only [ha, extract, matchValue] at h
                  cases hb : (decide (args.length = num 1) && isString (args.index 0)) with
                  | false => simp [hb, ofBool] at h
                  | true =>
                    simp [hb, ofBool, JS.assign, JS.set, JS.setProp] at h
                    exact ⟨args, h.symm⟩
              · simp [hcnv] at h
          · simp [hctv] at h
    · simp [hv] at h

theorem matchRequire_inv {dec m : JS} (h : matchRequire dec = some m) :
    (IsIdentifierNode (m.get "id") ∨ (m.get "id").get? "type" = some (str "ObjectPattern")) := by
  simp only [matchRequire, matchesAst, matchFields, matchValue] at h
  cases hx : dec.get? "type" with
  | none => simp [hx] at h
  | some v =>
    simp only [hx] at h
    by_cases hv : v = str "VariableDeclarator"
    · subst hv
      simp only [if_true] at h
      cases hi : dec.get? "id" with
      | none => simp [hi] at h
      | some id =>
        simp only [hi, extract, matchValue] at h
        cases hn : dec.get? "init" with
        | none =>
          simp only [hn] at h
          split at h
          · simp at h
          · rename_i heq
            split at heq <;> simp at heq
        | some init =>
          simp only [hn] at h
          cases hc : matchRequireCall init with
          | none =>
            simp only [hc] at h
            split at h
            · simp at h
            · rename_i heq
              split at heq <;> simp at heq
          | some c =>
            obtain ⟨args, rfl⟩ := matchRequireCall_inv hc
            simp only [hc] at h
            cases h1 : isIdentifier id with
            | some r1 =>
              obtain ⟨hid, rfl⟩ := isIdentifier_inv h1
              simp [h1, JS.assign, JS.set, JS.setProp] at h
              subst h
              left
              simpa [get_obj, List.lookup] using hid
            | none =>
              cases h2 : isObjectPattern id with
              | none => simp [h1, h2] at h
              | some r2 =>
                obtain ⟨hid, rfl⟩ := isObjectPattern_inv h2
                simp [h1, h2, JS.assign, JS.set, JS.setProp] at h
                subst h
                right
                simpa [get_obj, List.lookup] using hid
    · simp [hv] at h

theorem varToImport_cases (dec kind : JS) :
    (varToImport dec kind).get "type" = str "ImportDeclaration" ∨
      (varToImport dec kind = VariableDeclaration kind (arr [dec]) ∧
        matchRequire dec = none ∧ matchRequireWithProperty dec = none) := by
  unfold varToImport
  cases h1 : matchRequire dec with
  | some m =>
    left
    simp only
    rcases matchRequire_inv h1 with hid | hid
    · have ht := get_of_get? hid
      simp [ht, identifierToDefaultImport, ImportDeclaration, get_obj, List.lookup]
    · have ht := get_of_get? hid
      simp [ht, patternToNamedImport, ImportDeclaration, get_obj, List.lookup]
  | none =>
    simp only
    cases h2 : matchRequireWithProperty dec with
    | some m =>
      left
      simp only
      split
      · simp [identifierToDefaultImport, ImportDeclaration, get_obj, List.lookup]
      · simp [propertyToNamedImport, ImportDeclaration, get_obj, List.lookup]
    | none =>
      right
      refine ⟨rfl, ?_, ?_⟩ <;> first | rfl | trivial

/-! ## Lemmas on the example trees -/

theorem isIdentifierNode_identifier (name : String) : IsIdentifierNode (identifier name) := rfl

theorem isStringLiteral_stringLiteral (value : String) :
    IsStringLiteral (stringLiteral value) := ⟨rfl, value, rfl⟩

theorem isDeclarator_declarator (id init : JS) : IsDeclarator (declarator id init) id init :=
  ⟨rfl, rfl, rfl⟩

theorem isRequireCall_requireCall (source : String) :
    IsRequireCall (requireCall source) (stringLiteral source) :=
  ⟨rfl, rfl, rfl, rfl, isStringLiteral_stringLiteral source⟩

theorem isRequireMember_member (source name : String) :
    IsRequireMember (member (requireCall source) name) (identifier name) (stringLiteral source) :=
  ⟨rfl, rfl, isRequireCall_requireCall source, rfl, rfl⟩

theorem isSimplePropertyNode_property (key value : String) :
    IsSimplePropertyNode (property key value) := ⟨rfl, rfl, rfl, rfl⟩

theorem isSimpleObjectPattern_objectPattern (k1 v1 k2 v2 : String) :
    IsSimpleObjectPattern (objectPattern [property k1 v1, property k2 v2])
      [property k1 v1, property k2 v2] := by
  refine ⟨rfl, rfl, ?_⟩
  intro p hp
  simp only [List.mem_cons, List.mem_singleton, List.not_mem_nil, or_false] at hp
  rcases hp with rfl | rfl <;> exact isSimplePropertyNode_property _ _

theorem isCandidate_iff (node : JS) : IsCandidate node ↔ isVarWithRequireCalls node = true := by
  unfold IsCandidate isVarWithRequireCalls
  constructor
  · rintro ⟨ht, decs, hd, d, hmem, hm⟩
    simp only [ht, hd, JS.arraySome, decide_True, Bool.true_and, List.any_eq_true]
    refine ⟨d, hmem, ?_⟩
    rcases hm with hm | hm
    · cases h : matchRequire d with
      | none => exact absurd h hm
      | some m => simp
    · cases h : matchRequireWithProperty d with
      | none => exact absurd h hm
      | some m => simp
  · intro h
    simp only [Bool.and_eq_true, decide_eq_true_eq] at h
    obtain ⟨ht, hs⟩ := h
    refine ⟨ht, ?_⟩
    cases hd : node.get "declarations" <;> rw [hd] at hs <;> simp [JS.arraySome] at hs
    rename_i decs
    obtain ⟨d, hmem, hm⟩ := hs
    refine ⟨decs, rfl, d, hmem, ?_⟩
    rcases hm with hm | hm
    · left
      intro e
      rw [e] at hm
      simp at hm
    · right
      intro e
      rw [e] at hm
      simp at hm

theorem not_candidate_of {node : JS}
    (h : node.get "type" ≠ str "VariableDeclaration" ∨
      ∃ decs, node.get "declarations" = arr decs ∧
        ∀ d ∈ decs, matchRequire d = none ∧ matchRequireWithProperty d = none) :
    isVarWithRequireCalls node = false := by
  unfold isVarWithRequireCalls
  rcases h with h | ⟨decs, hd, hall⟩
  · simp [h]
  · simp only [hd, JS.arraySome, Bool.and_eq_false_imp, decide_eq_true_eq]
    intro _
    rw [List.any_eq_false]
    intro d hmem
    simp [(hall d hmem).1, (hall d hmem).2]

/-! ## The claims -/

/-- C1: for every declarator whose id is an Identifier node and whose init is a call of the
identifier `require` with exactly one string-literal argument, `varToImport` returns the
ImportDeclaration whose specifier list is the single ImportDefaultSpecifier with local equal
to that id and whose source is that string literal. -/
theorem varToImport_identifier_require (dec kind id init source : JS)
    (hdec : IsDeclarator dec id init) (hid : IsIdentifierNode id)
    (hinit : IsRequireCall init source) :
    varToImport dec kind = ImportDeclaration (arr [ImportDefaultSpecifier id]) source :=
  varToImport_identifier hdec hid hinit

/-- Scenario 1, `const a = require('x')`, gives `import a from 'x'`. -/
theorem varToImport_identifier_require_witness :
    IsDeclarator (declarator (identifier "a") (requireCall "x")) (identifier "a")
        (requireCall "x") ∧
      IsIdentifierNode (identifier "a") ∧
      IsRequireCall (requireCall "x") (stringLiteral "x") ∧
      varToImport (declarator (identifier "a") (requireCall "x")) (str "const") =
        ImportDeclaration (arr [ImportDefaultSpecifier (identifier "a")]) (stringLiteral "x") :=
  ⟨isDeclarator_declarator _ _, isIdentifierNode_identifier _, isRequireCall_requireCall _,
    varToImport_identifier_require _ _ _ _ _ (isDeclarator_declarator _ _)
      (isIdentifierNode_identifier _) (isRequireCall_requireCall _)⟩

/-- C2: for every declarator whose id is an ObjectPattern of simple properties and whose init
is `require(<one string literal>)`, `varToImport` returns one ImportDeclaration whose source
is the string literal and whose specifier list has the length and the order of the property
list: specifier `i` has for local the value of property `i` and, when the key of property
`i` is not named `default`, is the ImportSpecifier importing that key. -/
theorem varToImport_pattern_require (dec kind id init source : JS) (props : List JS)
    (hdec : IsDeclarator dec id init) (hid : IsSimpleObjectPattern id props)
    (hinit : IsRequireCall init source) :
    ∃ specs : List JS,
      varToImport dec kind = ImportDeclaration (arr specs) source ∧
      specs.length = props.length ∧
      ∀ (i : Nat) (p : JS), props[i]? = some p →
        ∃ s, specs[i]? = some s ∧ s.get "local" = p.get "value" ∧
          ((p.get "key").get "name" ≠ str "default" →
            s = ImportSpecifier (p.get "value") (p.get "key")) := by
  refine ⟨_, varToImport_pattern hdec hid hinit, by simp, ?_⟩
  intro i p hp
  refine ⟨createImportSpecifier (p.get "value") (p.get "key"), by simp [hp], ?_, ?_⟩
  · unfold createImportSpecifier
    split <;> simp [ImportDefaultSpecifier, ImportSpecifier, get_obj, List.lookup]
  · intro hne
    simp [createImportSpecifier, hne]

/-- Scenario 2, `const {a, b: c} = require('x')`, gives `import {a, b as c} from 'x'`. -/
theorem varToImport_pattern_require_witness :
    IsSimpleObjectPattern (objectPattern [property "a" "a", property "b" "c"])
        [property "a" "a", property "b" "c"] ∧
      (∃ specs : List JS,
        varToImport
            (declarator (objectPattern [property "a" "a", property "b" "c"]) (requireCall "x"))
            (str "const") =
          ImportDeclaration (arr specs) (stringLiteral "x") ∧
        specs.length = [property "a" "a", property "b" "c"].length ∧
        ∀ (i : Nat) (p : JS), [property "a" "a", property "b" "c"][i]? = some p →
          ∃ s, specs[i]? = some s ∧ s.get "local" = p.get "value" ∧
            ((p.get "key").get "name" ≠ str "default" →
              s = ImportSpecifier (p.get "value") (p.get "key"))) ∧
      varToImport
          (declarator (objectPattern [property "a" "a", property "b" "c"]) (requireCall "x"))
          (str "const") =
        ImportDeclaration
          (arr [ImportSpecifier (identifier "a") (identifier "a"),
            ImportSpecifier (identifier "c") (identifier "b")])
          (stringLiteral "x") :=
  ⟨isSimpleObjectPattern_objectPattern "a" "a" "b" "c",
    varToImport_pattern_require _ (str "const") _ _ _ _ (isDeclarator_declarator _ _)
      (isSimpleObjectPattern_objectPattern "a" "a" "b" "c") (isRequireCall_requireCall "x"),
    by decide⟩

/-- C3: for every declarator `<Identifier id> = require(<one string literal>).<property>`
with a member access that is not computed and a property Identifier not named `default`,
`varToImport` returns the ImportDeclaration with the single named ImportSpecifier of local
`id` and imported `property`, and with the string literal for source. -/
theorem varToImport_member_named (dec kind id init prop source : JS)
    (hdec : IsDeclarator dec id init) (hid : IsIdentifierNode id)
    (hinit : IsRequireMember init prop source) (hname : prop.get "name" ≠ str "default") :
    varToImport dec kind = ImportDeclaration (arr [ImportSpecifier id prop]) source := by
  rw [varToImport_member hdec hid hinit]
  simp [createImportSpecifier, hname]

/-- Scenario 4, `const a = require('x').foo`, gives `import {foo as a} from 'x'`. -/
theorem varToImport_member_named_witness :
    varToImport (declarator (identifier "a") (member (requireCall "x") "foo")) (str "const") =
      ImportDeclaration (arr [ImportSpecifier (identifier "a") (identifier "foo")])
        (stringLiteral "x") :=
  varToImport_member_named _ _ _ _ _ _ (isDeclarator_declarator _ _)
    (isIdentifierNode_identifier _) (isRequireMember_member "x" "foo") (by decide)

/-- C4: for every declarator `<Identifier id> = require(<one string literal>).default`, the
member access not computed and its property the Identifier named `default`, `varToImport`
returns the ImportDeclaration with the single ImportDefaultSpecifier of local `id` (not a
named specifier importing `default`) and with the string literal for source. -/
theorem varToImport_member_default (dec kind id init prop source : JS)
    (hdec : IsDeclarator dec id init) (hid : IsIdentifierNode id)
    (hinit : IsRequireMember init prop source) (hname : prop.get "name" = str "default") :
    varToImport dec kind = ImportDeclaration (arr [ImportDefaultSpecifier id]) source := by
  rw [varToImport_member hdec hid hinit]
  simp [createImportSpecifier, hname]

/-- Scenario 3, `const a = require('x').default`, gives `import a from 'x'`. -/
theorem varToImport_member_default_witness :
    varToImport (declarator (identifier "a") (member (requireCall "x") "default"))
        (str "const") =
      ImportDeclaration (arr [ImportDefaultSpecifier (identifier "a")]) (stringLiteral "x") :=
  varToImport_member_default _ _ _ _ _ _ (isDeclarator_declarator _ _)
    (isIdentifierNode_identifier _) (isRequireMember_member "x" "default") (by decide)

/-- C5: in a destructured require, `const {...} = require('m')` with simple properties, every
property whose key is the Identifier named `default` yields the ImportDefaultSpecifier with
local the value of that property, and every other property yields the named ImportSpecifier
of its value and key, in the order of the properties. -/
theorem varToImport_pattern_default (dec kind id init source : JS) (props : List JS)
    (hdec : IsDeclarator dec id init) (hid : IsSimpleObjectPattern id props)
    (hinit : IsRequireCall init source) :
    varToImport dec kind =
      ImportDeclaration
        (arr (props.map (fun p =>
          if (p.get "key").get "name" = str "default" then
            ImportDefaultSpecifier (p.get "value")
          else
            ImportSpecifier (p.get "value") (p.get "key"))))
        source :=
  varToImport_pattern hdec hid hinit

/-- The declarator `{default: x, y} = require('m')` gives `import x, {y} from 'm'`. -/
theorem varToImport_pattern_default_witness :
    varToImport
        (declarator (objectPattern [property "default" "x", property "y" "y"])
          (requireCall "m"))
        (str "const") =
      ImportDeclaration
        (arr [ImportDefaultSpecifier (identifier "x"),
          ImportSpecifier (identifier "y") (identifier "y")])
        (stringLiteral "m") :=
  (varToImport_pattern_default _ (str "const") _ _ _ _ (isDeclarator_declarator _ _)
    (isSimpleObjectPattern_objectPattern "default" "x" "y" "y")
    (isRequireCall_requireCall "m")).trans (by decide)

/-- C6: for every declarator that matches neither `matchRequire` nor
`matchRequireWithProperty`, and every declaration kind `kind`, `varToImport` returns a
VariableDeclaration of that kind whose declarator list is exactly that one declarator,
unchanged. -/
theorem varToImport_passthrough (dec kind : JS) (h1 : matchRequire dec = none)
    (h2 : matchRequireWithProperty dec = none) :
    varToImport dec kind = VariableDeclaration kind (arr [dec]) ∧
      (varToImport dec kind).get "type" = str "VariableDeclaration" ∧
      (varToImport dec kind).get "kind" = kind ∧
      (varToImport dec kind).get "declarations" = arr [dec] := by
  have h : varToImport dec kind = VariableDeclaration kind (arr [dec]) := by
    simp [varToImport, h1, h2]
  rw [h]
  simp [VariableDeclaration, get_obj, List.lookup]

/-- The declarator `b = 1` of a `let` statement is kept as `let b = 1`. -/
theorem varToImport_passthrough_witness :
    matchRequire (declarator (identifier "b") (numberLiteral 1)) = none ∧
      matchRequireWithProperty (declarator (identifier "b") (numberLiteral 1)) = none ∧
      varToImport (declarator (identifier "b") (numberLiteral 1)) (str "let") =
        VariableDeclaration (str "let") (arr [declarator (identifier "b") (numberLiteral 1)]) :=
  ⟨by decide, by decide,
    (varToImport_passthrough _ (str "let") (by decide) (by decide)).1⟩

/-- C7: for every accepted candidate statement (a candidate whose parent is the Program)
with the declarators `decs`, the handler asks for one `multiReplaceStatement` of that node in
that parent with comments preserved, and the replacement list it hands over has as many
statements as there are declarators, statement `i` being `varToImport` of declarator `i` with
the kind of the statement. -/
theorem enter_accepted_replacements (node parent : JS) (decs : List JS)
    (hc : IsCandidate node) (hp : parent.get "type" = str "Program")
    (hd : node.get "declarations" = arr decs) :
    ∃ reps : List JS,
      enter node parent = Effect.multiReplaceStatement parent node (arr reps) true ∧
      reps.length = decs.length ∧
      ∀ (i : Nat) (d : JS), decs[i]? = some d →
        reps[i]? = some (varToImport d (node.get "kind")) := by
  have hcand := (isCandidate_iff node).mp hc
  refine ⟨decs.map (fun dec => varToImport dec (node.get "kind")), ?_, by simp, ?_⟩
  · simp [enter, hcand, hp, replacements, hd, JS.arrayMap]
  · intro i d hi
    simp [hi]

/-- Scenario 5, `const a = require('x'), b = 1;` in a program, is replaced by
`import a from 'x';` followed by `const b = 1;`. -/
theorem enter_accepted_replacements_witness :
    (∃ reps : List JS,
      enter
          (constDeclaration [declarator (identifier "a") (requireCall "x"),
            declarator (identifier "b") (numberLiteral 1)])
          (program [constDeclaration [declarator (identifier "a") (requireCall "x"),
            declarator (identifier "b") (numberLiteral 1)]]) =
        Effect.multiReplaceStatement
          (program [constDeclaration [declarator (identifier "a") (requireCall "x"),
            declarator (identifier "b") (numberLiteral 1)]])
          (constDeclaration [declarator (identifier "a") (requireCall "x"),
            declarator (identifier "b") (numberLiteral 1)])
          (arr reps) true ∧
      reps.length =
        [declarator (identifier "a") (requireCall "x"),
          declarator (identifier "b") (numberLiteral 1)].length ∧
      ∀ (i : Nat) (d : JS),
        [declarator (identifier "a") (requireCall "x"),
          declarator (identifier "b") (numberLiteral 1)][i]? = some d →
        reps[i]? = some (varToImport d (str "const"))) ∧
      replacements
          (constDeclaration [declarator (identifier "a") (requireCall "x"),
            declarator (identifier "b") (numberLiteral 1)]) =
        arr [ImportDeclaration (arr [ImportDefaultSpecifier (identifier "a")])
            (stringLiteral "x"),
          VariableDeclaration (str "const")
            (arr [declarator (identifier "b") (numberLiteral 1)])] :=
  ⟨enter_accepted_replacements _ _ _
    ((isCandidate_iff _).mpr (by decide)) (by decide) (by decide), by decide⟩

/-- C8: for every candidate node whose parent's type is not `Program`, the enter handler
does one thing only: it calls `logger.warn` once with that node and the message
'import can only be at root level'. It asks for no replacement, so carrying out its effect
leaves the parent (and the node in it) as it was and adds that one warning to the log. -/
theorem enter_rejects_below_root (node parent : JS) (hc : IsCandidate node)
    (hp : parent.get "type" ≠ str "Program") :
    enter node parent = Effect.warn node "import can only be at root level" "commonjs" ∧
      ∀ log : List Warning,
        perform (enter node parent) (parent, log) =
          (parent, log ++ [⟨node, "import can only be at root level", "commonjs"⟩]) := by
  have hcand := (isCandidate_iff node).mp hc
  have h : enter node parent =
      Effect.warn node "import can only be at root level" "commonjs" := by
    simp [enter, hcand, hp]
  refine ⟨h, ?_⟩
  intro log
  rw [h]
  rfl

/-- Scenario 6, `const a = require('x');` inside the block of an `if`: the statement stays
and one warning is logged, by the handler and by the whole run. -/
theorem enter_rejects_below_root_witness :
    (enter (constDeclaration [declarator (identifier "a") (requireCall "x")])
        (obj [("type", str "BlockStatement"),
          ("body", arr [constDeclaration [declarator (identifier "a") (requireCall "x")]])]) =
      Effect.warn (constDeclaration [declarator (identifier "a") (requireCall "x")])
        "import can only be at root level" "commonjs") ∧
      transform (program [ifBlock (identifier "c")
          [constDeclaration [declarator (identifier "a") (requireCall "x")]]]) =
        (program [ifBlock (identifier "c")
          [constDeclaration [declarator (identifier "a") (requireCall "x")]]],
          [⟨constDeclaration [declarator (identifier "a") (requireCall "x")],
            "import can only be at root level", "commonjs"⟩]) :=
  ⟨(enter_rejects_below_root _ _ ((isCandidate_iff _).mpr (by decide)) (by decide)).1,
    by decide⟩

/-- C9: for every node that is not a VariableDeclaration, and for every VariableDeclaration
none of whose declarators matches `matchRequire` or `matchRequireWithProperty`, the enter
handler does nothing, whatever the parent is: no replacement and no warning, so carrying out
its effect changes neither the tree nor the log. -/
theorem enter_ignores_non_candidate (node parent : JS)
    (h : node.get "type" ≠ str "VariableDeclaration" ∨
      ∃ decs, node.get "declarations" = arr decs ∧
        ∀ d ∈ decs, matchRequire d = none ∧ matchRequireWithProperty d = none) :
    enter node parent = Effect.nothing ∧ ∀ w : World, perform (enter node parent) w = w := by
  have hn := not_candidate_of h
  have he : enter node parent = Effect.nothing := by
    simp [enter, hn]
  refine ⟨he, ?_⟩
  intro w
  rw [he]
  rfl

/-- The statement `const b = 1;` at the root of a program is left alone. -/
theorem enter_ignores_non_candidate_witness :
    enter (constDeclaration [declarator (identifier "b") (numberLiteral 1)])
        (program [constDeclaration [declarator (identifier "b") (numberLiteral 1)]]) =
      Effect.nothing :=
  (enter_ignores_non_candidate
    (constDeclaration [declarator (identifier "b") (numberLiteral 1)])
    (program [constDeclaration [declarator (identifier "b") (numberLiteral 1)]])
    (Or.inr ⟨[declarator (identifier "b") (numberLiteral 1)], rfl, by
      intro d hd
      rw [List.mem_singleton] at hd
      subst hd
      exact ⟨by decide, by decide⟩⟩)).1

/-- C10: running the transform on the tree a first run produced changes nothing: the tree
after the second run is the tree after the first. The reason is proved with it: after a run
on a Program no statement of the body is a candidate, and every statement the handler puts
in place of a declarator is an ImportDeclaration or a VariableDeclaration holding that one
declarator, which is not require-shaped. -/
theorem transform_idempotent (ast : JS) :
    (transform (transform ast).1).1 = (transform ast).1 ∧
      (ast.get "type" = str "Program" →
        ∀ body, (transform ast).1.get "body" = arr body →
          ∀ s ∈ body, isVarWithRequireCalls s = false) ∧
      (∀ dec kind : JS,
        (varToImport dec kind).get "type" = str "ImportDeclaration" ∨
          (varToImport dec kind = VariableDeclaration kind (arr [dec]) ∧
            matchRequire dec = none ∧ matchRequireWithProperty dec = none)) :=
  ⟨transform_idempotent_tree ast, fun hp _ hb => transform_body_noCandidate hp hb,
    varToImport_cases⟩

/-- Scenario 5 run twice: the second run returns the tree of the first and logs nothing. -/
theorem transform_idempotent_witness :
    (transform (transform (program
        [constDeclaration [declarator (identifier "a") (requireCall "x"),
          declarator (identifier "b") (numberLiteral 1)]])).1).1 =
      program
        [ImportDeclaration (arr [ImportDefaultSpecifier (identifier "a")])
            (stringLiteral "x"),
          VariableDeclaration (str "const")
            (arr [declarator (identifier "b") (numberLiteral 1)])] :=
  (transform_idempotent _).1.trans (by decide)

/-! ## Inversion of the matchers -/

theorem matchValue_value_eq_some {v x r : JS} :
    matchValue (.value v) x = some r ↔ x = v ∧ r = obj [] := by
  simp only [matchValue]
  by_cases h : x = v
  · simp [h, eq_comm]
  · simp [h]

theorem matchValue_function (f : JS → MatchResult) (x : JS) :
    matchValue (.function f) x = f x := by
  simp only [matchValue]

theorem matchValue_object (fields : List (String × Pattern)) (x : JS) :
    matchValue (.object fields) x = matchFields fields x := by
  simp only [matchValue]

theorem matchFields_cons_eq_some {k : String} {p : Pattern} {rest : List (String × Pattern)}
    {x r : JS} :
    matchFields ((k, p) :: rest) x = some r ↔
      ∃ v found others, x.get? k = some v ∧ matchValue p v = some found ∧
        matchFields rest x = some others ∧ r = found.assign others := by
  simp only [matchFields]
  cases h1 : x.get? k with
  | none => simp
  | some v =>
    cases h2 : matchValue p v with
    | none => simp [h2]
    | some found =>
      cases h3 : matchFields rest x with
      | none => simp [h2]
      | some others => simp [h2, eq_comm]

theorem matchFields_nil_eq_some {x r : JS} : matchFields [] x = some r ↔ r = obj [] := by
  simp [matchFields, eq_comm]

theorem ofBool_eq_some {b : Bool} {r : JS} : ofBool b = some r ↔ b = true ∧ r = obj [] := by
  cases b <;> simp [ofBool, eq_comm]

theorem extract_eq_some {name : String} {p : Pattern} {x r : JS} :
    extract name p x = some r ↔
      ∃ result, matchValue p x = some result ∧ r = (obj [(name, x)]).assign result := by
  simp only [extract]
  cases h : matchValue p x with
  | none => simp
  | some result => simp [eq_comm]

theorem isString_inv {x : JS} (h : isString x = true) : IsStringLiteral x := by
  simp only [isString, Bool.and_eq_true, decide_eq_true_eq] at h
  refine ⟨h.1, ?_⟩
  cases hv : x.get "value" <;> rw [hv] at h <;> simp at h
  exact ⟨_, rfl⟩

theorem get?_of_get_eq_str {x : JS} {k s : String} (h : x.get k = str s) :
    x.get? k = some (str s) := by
  unfold JS.get at h
  cases hx : x.get? k with
  | none => rw [hx] at h; simp at h
  | some v => rw [hx] at h; simp at h; rw [h]

theorem isSimpleProperty_inv {p r : JS} (h : isSimpleProperty p = some r) :
    IsSimplePropertyNode p := by
  simp only [isSimpleProperty, matchesAst, matchFields_cons_eq_some, matchValue_value_eq_some,
    matchFields_nil_eq_some, matchValue_function, matchValue_object] at h
  obtain ⟨v1, _, _, h1, ⟨rfl, _⟩, ⟨v2, f2, _, h2, hk, ⟨v3, _, _, h3, ⟨rfl, _⟩,
    ⟨v4, f4, _, h4, hv, _⟩, _⟩, _⟩, _⟩ := h
  have hk2 := (isIdentifier_inv hk).1
  have hv2 := (isIdentifier_inv hv).1
  rw [← get_of_get? h2] at hk2
  rw [← get_of_get? h4] at hv2
  exact ⟨h1, hk2, h3, hv2⟩

theorem isObjectPattern_shape {x r : JS} (h : isObjectPattern x = some r) :
    ∃ props, IsSimpleObjectPattern x props := by
  simp only [isObjectPattern, matchesAst, matchFields_cons_eq_some, matchValue_value_eq_some,
    matchFields_nil_eq_some, matchValue_function, matchValue_object, ofBool_eq_some] at h
  obtain ⟨v1, _, _, h1, ⟨rfl, _⟩, ⟨v2, _, _, h2, ⟨hall, _⟩, _⟩, _⟩ := h
  cases v2 <;> simp [JS.arrayEvery] at hall
  rename_i props
  refine ⟨props, h1, h2, ?_⟩
  intro p hp
  have := hall p hp
  cases hs : isSimpleProperty p with
  | none => rw [hs] at this; simp at this
  | some r => exact isSimpleProperty_inv hs

theorem matchRequireCall_shape {x r : JS} (h : matchRequireCall x = some r) :
    ∃ source, IsRequireCall x source := by
  simp only [matchRequireCall, matchesAst, matchFields_cons_eq_some, matchValue_value_eq_some,
    matchFields_nil_eq_some, matchValue_function, matchValue_object, ofBool_eq_some,
    extract_eq_some] at h
  obtain ⟨v1, _, _, h1, ⟨rfl, _⟩, ⟨callee, _, _, h2, ⟨ct, _, _, h3, ⟨rfl, _⟩,
    ⟨cn, _, _, h4, ⟨rfl, _⟩, _⟩, _⟩,
    ⟨args, _, _, h5, ⟨_, ⟨hargs, _⟩, _⟩, _⟩, _⟩, _⟩ := h
  simp only [Bool.and_eq_true, decide_eq_true_eq] at hargs
  obtain ⟨hlen, hstr⟩ := hargs
  cases args <;> simp [JS.length] at hlen
  rename_i items
  obtain ⟨source, rfl⟩ := List.length_eq_one.mp hlen
  simp only [JS.index, List.getD_cons_zero] at hstr
  have hc := get_of_get? h2
  refine ⟨source, h1, ?_, ?_, h5, isString_inv hstr⟩
  · rw [hc]; exact h3
  · rw [hc]; exact h4

theorem matchRequire_shape {dec m : JS} (h : matchRequire dec = some m) :
    ∃ id init source, IsDeclarator dec id init ∧
      (IsIdentifierNode id ∨ ∃ props, IsSimpleObjectPattern id props) ∧
      IsRequireCall init source := by
  simp only [matchRequire, matchesAst, matchFields_cons_eq_some, matchValue_value_eq_some,
    matchFields_nil_eq_some, matchValue_function, extract_eq_some] at h
  obtain ⟨v1, _, _, h1, ⟨rfl, _⟩, ⟨id, _, _, h2, ⟨r, hid, _⟩,
    ⟨init, c, _, h3, hcall, _⟩, _⟩, _⟩ := h
  obtain ⟨source, hsrc⟩ := matchRequireCall_shape hcall
  refine ⟨id, init, source, ⟨h1, h2, h3⟩, ?_, hsrc⟩
  cases hi : isIdentifier id with
  | some r1 => exact Or.inl (isIdentifier_inv hi).1
  | none =>
    rw [hi] at hid
    exact Or.inr (isObjectPattern_shape hid)

theorem matchRequireWithProperty_shape {dec m : JS}
    (h : matchRequireWithProperty dec = some m) :
    ∃ id init prop source, IsDeclarator dec id init ∧ IsIdentifierNode id ∧
      IsRequireMember init prop source := by
  simp only [matchRequireWithProperty, matchesAst, matchFields_cons_eq_some,
    matchValue_value_eq_some, matchFields_nil_eq_some, matchValue_function, matchValue_object,
    extract_eq_some] at h
  obtain ⟨v1, _, _, h1, ⟨rfl, _⟩, ⟨id, _, _, h2, ⟨r, hid, _⟩,
    ⟨init, _, _, h3, ⟨t, _, _, g1, ⟨rfl, _⟩, ⟨cv, _, _, g2, ⟨rfl, _⟩,
      ⟨o, c, _, g3, hcall,
        ⟨prop, _, _, g4, ⟨_, ⟨pt, _, _, g5, ⟨rfl, _⟩, _⟩, _⟩, _⟩, _⟩, _⟩,
      _⟩, _⟩, _⟩, _⟩ := h
  obtain ⟨source, hsrc⟩ := matchRequireCall_shape hcall
  rw [← get_of_get? g3] at hsrc
  exact ⟨id, init, prop, source, ⟨h1, h2, h3⟩, (isIdentifier_inv hid).1,
    ⟨g1, g2, hsrc, g4, g5⟩⟩

theorem isDeclarator_unique {dec id init id2 init2 : JS} (h : IsDeclarator dec id init)
    (h2 : IsDeclarator dec id2 init2) : id = id2 ∧ init = init2 := by
  obtain ⟨_, a, b⟩ := h
  obtain ⟨_, c, d⟩ := h2
  rw [a] at c
  rw [b] at d
  exact ⟨Option.some.inj c, Option.some.inj d⟩

theorem not_both_matchers (dec : JS) :
    matchRequire dec = none ∨ matchRequireWithProperty dec = none := by
  cases h1 : matchRequire dec with
  | none => exact Or.inl rfl
  | some m1 =>
    cases h2 : matchRequireWithProperty dec with
    | none => exact Or.inr rfl
    | some m2 =>
      exfalso
      obtain ⟨id, init, source, hd, _, hcall⟩ := matchRequire_shape h1
      obtain ⟨id2, init2, prop, source2, hd2, _, hmem⟩ := matchRequireWithProperty_shape h2
      have := (isDeclarator_unique hd hd2).2
      subst this
      have a := hcall.1
      rw [hmem.1] at a
      simp at a

theorem matched_of_import {dec kind : JS}
    (h : (varToImport dec kind).get "type" = str "ImportDeclaration") :
    matchRequire dec ≠ none ∨ matchRequireWithProperty dec ≠ none := by
  rcases varToImport_cases dec kind with _ | ⟨he, _, _⟩
  · by_cases h1 : matchRequire dec = none
    · by_cases h2 : matchRequireWithProperty dec = none
      · have he : varToImport dec kind = VariableDeclaration kind (arr [dec]) := by
          simp [varToImport, h1, h2]
        rw [he] at h
        simp [VariableDeclaration, get_obj, List.lookup] at h
      · exact Or.inr h2
    · exact Or.inl h1
  · rw [he] at h
    simp [VariableDeclaration, get_obj, List.lookup] at h

theorem import_of_matched {dec : JS} (kind : JS)
    (h : matchRequire dec ≠ none ∨ matchRequireWithProperty dec ≠ none) :
    (varToImport dec kind).get "type" = str "ImportDeclaration" := by
  rcases varToImport_cases dec kind with hl | ⟨_, h1, h2⟩
  · exact hl
  · rcases h with h | h
    · exact absurd h1 h
    · exact absurd h2 h

theorem get_local_createImportSpecifier (loc imported : JS) :
    (createImportSpecifier loc imported).get "local" = loc := by
  unfold createImportSpecifier
  split <;> simp [ImportDefaultSpecifier, ImportSpecifier, get_obj, List.lookup]

theorem varToImport_bindings {dec kind : JS}
    (h : (varToImport dec kind).get "type" = str "ImportDeclaration") :
    specifierLocals (varToImport dec kind) = boundIdentifiers (dec.get "id") ∧
      (varToImport dec kind).get "source" = requiredSource (dec.get "init") ∧
      IsStringLiteral (requiredSource (dec.get "init")) := by
  cases h1 : matchRequire dec with
  | some m =>
    obtain ⟨id, init, source, hd, hid, hcall⟩ := matchRequire_shape h1
    have hgid := get_of_get? hd.2.1
    have hginit := get_of_get? hd.2.2
    have hsrc : requiredSource init = source := by
      simp [requiredSource, get_of_get? hcall.1, get_of_get? hcall.2.2.2.1, JS.index]
    rw [hgid, hginit, hsrc]
    rcases hid with hid | ⟨props, hid⟩
    · rw [varToImport_identifier hd hid hcall]
      refine ⟨?_, ?_, hcall.2.2.2.2⟩
      · simp [specifierLocals, boundIdentifiers, ImportDeclaration, ImportDefaultSpecifier,
          get_obj, List.lookup, get_of_get? hid]
      · simp [ImportDeclaration, get_obj, List.lookup]
    · rw [varToImport_pattern hd hid hcall]
      refine ⟨?_, ?_, hcall.2.2.2.2⟩
      · simp [specifierLocals, boundIdentifiers, ImportDeclaration, get_obj, List.lookup,
          get_of_get? hid.1, get_of_get? hid.2.1, get_local_createImportSpecifier]
      · simp [ImportDeclaration, get_obj, List.lookup]
  | none =>
    cases h2 : matchRequireWithProperty dec with
    | some m =>
      obtain ⟨id, init, prop, source, hd, hid, hmem⟩ := matchRequireWithProperty_shape h2
      have hgid := get_of_get? hd.2.1
      have hginit := get_of_get? hd.2.2
      have hsrc : requiredSource init = source := by
        simp [requiredSource, get_of_get? hmem.1, get_of_get? hmem.2.2.1.2.2.2.1, JS.index]
      rw [hgid, hginit, hsrc, varToImport_member hd hid hmem]
      refine ⟨?_, ?_, hmem.2.2.1.2.2.2.2⟩
      · simp [specifierLocals, boundIdentifiers, ImportDeclaration, get_obj, List.lookup,
          get_of_get? hid, get_local_createImportSpecifier]
      · simp [ImportDeclaration, get_obj, List.lookup]
    | none =>
      rcases matched_of_import h with h | h
      · exact absurd h1 h
      · exact absurd h2 h

theorem varToImportSwapped_eq (dec kind : JS) :
    varToImportSwapped dec kind = varToImport dec kind := by
  unfold varToImportSwapped varToImport
  rcases not_both_matchers dec with h | h
  · rw [h]
  · rw [h]

/-! ## The claims on rejected patterns, bindings and totality -/

/-- C11: for every declarator whose id is an ObjectPattern holding at least one element that
is not a simple property (computed key, key or value that is not an Identifier, or an
element that is no Property), neither matcher accepts the declarator and `varToImport` never
returns an ImportDeclaration: it returns the whole declarator, unchanged, wrapped in a
VariableDeclaration of the original kind. -/
theorem varToImport_ambiguous_pattern (dec kind id p : JS) (props : List JS)
    (hid : dec.get? "id" = some id) (ht : id.get? "type" = some (str "ObjectPattern"))
    (hp : id.get? "properties" = some (arr props)) (hmem : p ∈ props)
    (hns : ¬ IsSimplePropertyNode p) :
    matchRequire dec = none ∧ matchRequireWithProperty dec = none ∧
      varToImport dec kind = VariableDeclaration kind (arr [dec]) ∧
      (varToImport dec kind).get "type" ≠ str "ImportDeclaration" := by
  have hnid : ¬ IsIdentifierNode id := by
    intro h
    unfold IsIdentifierNode at h
    rw [ht] at h
    simp at h
  have h1 : matchRequire dec = none := by
    cases h : matchRequire dec with
    | none => rfl
    | some m =>
      exfalso
      obtain ⟨id2, init, source, hd, hshape, _⟩ := matchRequire_shape h
      have e : id2 = id := by
        have := hd.2.1
        rw [hid] at this
        exact (Option.some.inj this).symm
      subst e
      rcases hshape with hi | ⟨props2, _, hp2, hall⟩
      · exact hnid hi
      · rw [hp] at hp2
        have e2 : props = props2 := by
          simpa using hp2
        subst e2
        exact hns (hall p hmem)
  have h2 : matchRequireWithProperty dec = none := by
    cases h : matchRequireWithProperty dec with
    | none => rfl
    | some m =>
      exfalso
      obtain ⟨id2, init, prop, source, hd, hi, _⟩ := matchRequireWithProperty_shape h
      have e : id2 = id := by
        have := hd.2.1
        rw [hid] at this
        exact (Option.some.inj this).symm
      subst e
      exact hnid hi
  have h3 : varToImport dec kind = VariableDeclaration kind (arr [dec]) := by
    simp [varToImport, h1, h2]
  refine ⟨h1, h2, h3, ?_⟩
  rw [h3]
  simp [VariableDeclaration, get_obj, List.lookup]

/-- The declarator `{a: {b}} = require('x')`, a nested pattern, is kept as
`const {a: {b}} = require('x')`. -/
theorem varToImport_ambiguous_pattern_witness :
    ¬ IsSimplePropertyNode (nestedProperty "a" "b") ∧
      varToImport
          (declarator (objectPattern [property "c" "c", nestedProperty "a" "b"])
            (requireCall "x"))
          (str "const") =
        VariableDeclaration (str "const")
          (arr [declarator (objectPattern [property "c" "c", nestedProperty "a" "b"])
            (requireCall "x")]) :=
  have hns : ¬ IsSimplePropertyNode (nestedProperty "a" "b") := by
    unfold IsSimplePropertyNode IsIdentifierNode
    decide
  ⟨hns,
    (varToImport_ambiguous_pattern
      (declarator (objectPattern [property "c" "c", nestedProperty "a" "b"]) (requireCall "x"))
      (str "const") (objectPattern [property "c" "c", nestedProperty "a" "b"])
      (nestedProperty "a" "b") [property "c" "c", nestedProperty "a" "b"]
      rfl rfl rfl (by simp) hns).2.2.1⟩

/-- C12: for every declarator for which `varToImport` returns an ImportDeclaration, that
declaration binds the same names to the same module as the original: the locals of its
specifiers, in order, are the identifiers bound by the declarator's id (the id itself when
it is an Identifier, the property values in order when it is an ObjectPattern), and its
source is the string literal passed to `require` in the declarator's init. -/
theorem varToImport_same_bindings (dec kind : JS)
    (h : (varToImport dec kind).get "type" = str "ImportDeclaration") :
    specifierLocals (varToImport dec kind) = boundIdentifiers (dec.get "id") ∧
      (varToImport dec kind).get "source" = requiredSource (dec.get "init") ∧
      IsStringLiteral (requiredSource (dec.get "init")) :=
  varToImport_bindings h

/-- The declarator `{a, b: c} = require('x')` binds `a` and `c` from `'x'`, and so does
the declaration made of it. -/
theorem varToImport_same_bindings_witness :
    specifierLocals
        (varToImport
          (declarator (objectPattern [property "a" "a", property "b" "c"]) (requireCall "x"))
          (str "const")) =
      [identifier "a", identifier "c"] ∧
      (varToImport
          (declarator (objectPattern [property "a" "a", property "b" "c"]) (requireCall "x"))
          (str "const")).get "source" =
        stringLiteral "x" :=
  have h := varToImport_same_bindings
    (declarator (objectPattern [property "a" "a", property "b" "c"]) (requireCall "x"))
    (str "const") (by decide)
  ⟨h.1.trans (by decide), h.2.1.trans (by decide)⟩

/-- C13: `varToImport` is total and deterministic. For every declarator and kind it returns
a node, an ImportDeclaration or a VariableDeclaration, never `undefined`; equal arguments
give equal results; and whenever `matchRequire` succeeds the type of the captured id is
`ObjectPattern` or `Identifier`, so the inner if and else-if cannot fall through. -/
theorem varToImport_total (dec kind : JS) :
    ((varToImport dec kind).get "type" = str "ImportDeclaration" ∨
        (varToImport dec kind).get "type" = str "VariableDeclaration") ∧
      varToImport dec kind ≠ undefined ∧
      (∀ m, matchRequire dec = some m →
        (m.get "id").get "type" = str "ObjectPattern" ∨
          (m.get "id").get "type" = str "Identifier") ∧
      (∀ dec2 kind2, dec2 = dec → kind2 = kind →
        varToImport dec2 kind2 = varToImport dec kind) := by
  have hcases : (varToImport dec kind).get "type" = str "ImportDeclaration" ∨
      (varToImport dec kind).get "type" = str "VariableDeclaration" := by
    rcases varToImport_cases dec kind with h | ⟨h, _, _⟩
    · exact Or.inl h
    · right
      rw [h]
      simp [VariableDeclaration, get_obj, List.lookup]
  refine ⟨hcases, ?_, ?_, ?_⟩
  · intro hu
    rw [hu] at hcases
    simp [JS.get, JS.get?] at hcases
  · intro m hm
    rcases matchRequire_inv hm with h | h
    · exact Or.inr (get_of_get? h)
    · exact Or.inl (get_of_get? h)
  · intro dec2 kind2 h1 h2
    rw [h1, h2]

/-- C16: no declarator matches both `matchRequire` and `matchRequireWithProperty`: the first
needs an init of type CallExpression, the second an init of type MemberExpression. So the
order in which `varToImport` tries them never changes the result. -/
theorem matchers_exclusive (dec kind : JS) :
    (matchRequire dec = none ∨ matchRequireWithProperty dec = none) ∧
      (∀ m, matchRequire dec = some m →
        (dec.get "init").get "type" = str "CallExpression") ∧
      (∀ m, matchRequireWithProperty dec = some m →
        (dec.get "init").get "type" = str "MemberExpression") ∧
      varToImportSwapped dec kind = varToImport dec kind := by
  refine ⟨not_both_matchers dec, ?_, ?_, varToImportSwapped_eq dec kind⟩
  · intro m hm
    obtain ⟨id, init, source, hd, _, hcall⟩ := matchRequire_shape hm
    rw [get_of_get? hd.2.2]
    exact get_of_get? hcall.1
  · intro m hm
    obtain ⟨id, init, prop, source, hd, _, hmem⟩ := matchRequireWithProperty_shape hm
    rw [get_of_get? hd.2.2]
    exact get_of_get? hmem.1

/-- On `a = require('x')` only `matchRequire` succeeds, on `a = require('x').foo` only
`matchRequireWithProperty`. -/
theorem matchers_exclusive_witness :
    matchRequireWithProperty (declarator (identifier "a") (requireCall "x")) = none ∧
      matchRequire (declarator (identifier "a") (member (requireCall "x") "foo")) = none ∧
      varToImportSwapped (declarator (identifier "a") (member (requireCall "x") "foo"))
          (str "const") =
        ImportDeclaration (arr [ImportSpecifier (identifier "a") (identifier "foo")])
          (stringLiteral "x") :=
  ⟨by decide, by decide,
    (matchers_exclusive (declarator (identifier "a") (member (requireCall "x") "foo"))
      (str "const")).2.2.2.trans (by decide)⟩

/-! ## The claims on the matchers and on the filter -/

/-- C17, as stated, fails on `require('x')`: the match succeeds, but what it captures under
`sources` is not the string literal `'x'`; it is the argument list that holds it. -/
theorem matchRequireCall_sources_not_literal :
    IsRequireCall (requireCall "x") (stringLiteral "x") ∧
      ∃ m, matchRequireCall (requireCall "x") = some m ∧
        m.get "sources" ≠ stringLiteral "x" ∧
        m.get "sources" = arr [stringLiteral "x"] :=
  ⟨isRequireCall_requireCall "x", obj [("sources", arr [stringLiteral "x"])],
    by decide, by decide, by decide⟩

/-- C17, amended: `matchRequireCall` succeeds on a node if and only if the node's type is
CallExpression, its callee is an Identifier named exactly `require`, and its argument list
has exactly one element, a string literal. On success it captures under `sources` the
argument list, the one-element array holding that literal, so that the literal is
`sources[0]`. -/
theorem matchRequireCall_iff (x : JS) :
    ((matchRequireCall x).isSome = true ↔ ∃ source, IsRequireCall x source) ∧
      (∀ m, matchRequireCall x = some m →
        ∃ source, IsRequireCall x source ∧
          m = obj [("sources", arr [source])] ∧
          m.get "sources" = arr [source] ∧
          (m.get "sources").index 0 = source) := by
  constructor
  · constructor
    · intro h
      cases hm : matchRequireCall x with
      | none => rw [hm] at h; simp at h
      | some m => exact matchRequireCall_shape hm
    · rintro ⟨source, hs⟩
      rw [matchRequireCall_of hs]
      rfl
  · intro m hm
    obtain ⟨source, hs⟩ := matchRequireCall_shape hm
    have e := matchRequireCall_of hs
    rw [hm] at e
    have e2 := Option.some.inj e
    subst e2
    exact ⟨source, hs, rfl, by simp [get_obj, List.lookup],
      by simp [get_obj, List.lookup, JS.index]⟩

/-- The calls `require('x')` matches with `sources[0]` the literal; `require()`,
`require('a', 'b')`, `require(x)` and `foo('a')` do not match. -/
theorem matchRequireCall_iff_witness :
    (∃ source, IsRequireCall (requireCall "x") source ∧
      obj [("sources", arr [stringLiteral "x"])] = obj [("sources", arr [source])] ∧
      (obj [("sources", arr [stringLiteral "x"])]).get "sources" = arr [source] ∧
      ((obj [("sources", arr [stringLiteral "x"])]).get "sources").index 0 = source) ∧
      matchRequireCall (callExpression (identifier "require") []) = none ∧
      matchRequireCall
        (callExpression (identifier "require") [stringLiteral "a", stringLiteral "b"]) = none ∧
      matchRequireCall (callExpression (identifier "require") [identifier "x"]) = none ∧
      matchRequireCall (callExpression (identifier "foo") [stringLiteral "a"]) = none :=
  ⟨(matchRequireCall_iff (requireCall "x")).2 _ (by decide),
    by decide, by decide, by decide, by decide⟩

/-- C18, as stated, fails on `const {a} = require('x')`: the id is not an Identifier and
`matchRequireWithProperty` rejects the declarator, yet `varToImport` returns the import
`import {a} from 'x'`, not the pass-through VariableDeclaration, because the init is a
direct require call and `matchRequire` accepts it. -/
theorem rejected_by_property_matcher_yet_imported :
    ¬ IsIdentifierNode
        ((declarator (objectPattern [property "a" "a"]) (requireCall "x")).get "id") ∧
      matchRequireWithProperty
        (declarator (objectPattern [property "a" "a"]) (requireCall "x")) = none ∧
      varToImport (declarator (objectPattern [property "a" "a"]) (requireCall "x"))
          (str "const") =
        ImportDeclaration (arr [ImportSpecifier (identifier "a") (identifier "a")])
          (stringLiteral "x") ∧
      varToImport (declarator (objectPattern [property "a" "a"]) (requireCall "x"))
          (str "const") ≠
        VariableDeclaration (str "const")
          (arr [declarator (objectPattern [property "a" "a"]) (requireCall "x")]) :=
  ⟨by unfold IsIdentifierNode; decide, by decide, by decide, by decide⟩

/-- C18, amended: `matchRequireWithProperty` rejects every declarator whose init is a
computed member access, whose member object is not itself a direct require call, whose
property is not an Identifier, or whose id is not an Identifier; and for each of these whose
init is a member access (type MemberExpression), `varToImport` returns the pass-through
VariableDeclaration. -/
theorem matchRequireWithProperty_rejects (dec kind : JS)
    (h : (dec.get "init").get "computed" ≠ bool false ∨
      (¬ ∃ source, IsRequireCall ((dec.get "init").get "object") source) ∨
      ¬ IsIdentifierNode ((dec.get "init").get "property") ∨
      ¬ IsIdentifierNode (dec.get "id")) :
    matchRequireWithProperty dec = none ∧
      ((dec.get "init").get "type" = str "MemberExpression" →
        varToImport dec kind = VariableDeclaration kind (arr [dec])) := by
  have h2 : matchRequireWithProperty dec = none := by
    cases hm : matchRequireWithProperty dec with
    | none => rfl
    | some m =>
      exfalso
      obtain ⟨id, init, prop, source, hd, hid, hmem⟩ := matchRequireWithProperty_shape hm
      rw [get_of_get? hd.2.1, get_of_get? hd.2.2] at h
      rcases h with h | h | h | h
      · exact h (get_of_get? hmem.2.1)
      · exact h ⟨source, hmem.2.2.1⟩
      · rw [get_of_get? hmem.2.2.2.1] at h
        exact h hmem.2.2.2.2
      · exact h hid
  refine ⟨h2, ?_⟩
  intro ht
  have h1 : matchRequire dec = none := by
    cases hm : matchRequire dec with
    | none => rfl
    | some m =>
      exfalso
      obtain ⟨id, init, source, hd, _, hcall⟩ := matchRequire_shape hm
      rw [get_of_get? hd.2.2, get_of_get? hcall.1] at ht
      simp at ht
  simp [varToImport, h1, h2]

/-- The declarators `a = require('x')['foo']`, `a = require('x').a.b` and
`{a} = require('x').foo` are all kept as variable declarations. -/
theorem matchRequireWithProperty_rejects_witness :
    varToImport (declarator (identifier "a") (computedMember (requireCall "x") "foo"))
        (str "const") =
      VariableDeclaration (str "const")
        (arr [declarator (identifier "a") (computedMember (requireCall "x") "foo")]) ∧
      varToImport (declarator (identifier "a") (member (member (requireCall "x") "a") "b"))
        (str "const") =
      VariableDeclaration (str "const")
        (arr [declarator (identifier "a") (member (member (requireCall "x") "a") "b")]) ∧
      varToImport
        (declarator (objectPattern [property "a" "a"]) (member (requireCall "x") "foo"))
        (str "const") =
      VariableDeclaration (str "const")
        (arr [declarator (objectPattern [property "a" "a"])
          (member (requireCall "x") "foo")]) :=
  ⟨(matchRequireWithProperty_rejects
      (declarator (identifier "a") (computedMember (requireCall "x") "foo")) (str "const")
      (Or.inl (by decide))).2 (by decide),
    (matchRequireWithProperty_rejects
      (declarator (identifier "a") (member (member (requireCall "x") "a") "b")) (str "const")
      (Or.inr (Or.inl (by
        rintro ⟨source, hs⟩
        have := hs.1
        revert this
        decide)))).2 (by decide),
    (matchRequireWithProperty_rejects
      (declarator (objectPattern [property "a" "a"]) (member (requireCall "x") "foo"))
      (str "const")
      (Or.inr (Or.inr (Or.inr (by
        unfold IsIdentifierNode
        decide))))).2 (by decide)⟩

/-- C19: the candidate filter and the classifier agree. For every declarator `varToImport`
returns an ImportDeclaration if and only if the declarator matches `matchRequire` or
`matchRequireWithProperty`. Hence for every VariableDeclaration with the declarators `decs`,
`isVarWithRequireCalls` is true if and only if at least one of its replacement statements is
an ImportDeclaration, and every VariableDeclaration among the replacements has exactly one
declarator, which is not require-shaped. -/
theorem filter_agrees_with_classifier :
    (∀ dec kind : JS,
      (varToImport dec kind).get "type" = str "ImportDeclaration" ↔
        (matchRequire dec ≠ none ∨ matchRequireWithProperty dec ≠ none)) ∧
      (∀ (node : JS) (decs : List JS),
        node.get "type" = str "VariableDeclaration" →
        node.get "declarations" = arr decs →
        replacements node = arr (decs.map (fun d => varToImport d (node.get "kind"))) ∧
          (isVarWithRequireCalls node = true ↔
            ∃ r ∈ decs.map (fun d => varToImport d (node.get "kind")),
              r.get "type" = str "ImportDeclaration") ∧
          ∀ r ∈ decs.map (fun d => varToImport d (node.get "kind")),
            r.get "type" = str "VariableDeclaration" →
              ∃ d, r.get "declarations" = arr [d] ∧
                matchRequire d = none ∧ matchRequireWithProperty d = none) := by
  refine ⟨fun dec kind => ⟨matched_of_import, import_of_matched kind⟩, ?_⟩
  intro node decs ht hd
  refine ⟨by simp [replacements, hd, JS.arrayMap], ?_, ?_⟩
  · rw [← isCandidate_iff]
    constructor
    · rintro ⟨_, decs2, hd2, d, hmem, hm⟩
      rw [hd] at hd2
      have e : decs = decs2 := by simpa using hd2
      subst e
      exact ⟨_, List.mem_map.mpr ⟨d, hmem, rfl⟩, import_of_matched _ hm⟩
    · rintro ⟨r, hr, hi⟩
      obtain ⟨d, hmem, rfl⟩ := List.mem_map.mp hr
      exact ⟨ht, decs, hd, d, hmem, matched_of_import hi⟩
  · intro r hr hv
    obtain ⟨d, _, rfl⟩ := List.mem_map.mp hr
    rcases varToImport_cases d (node.get "kind") with h | ⟨h, h1, h2⟩
    · rw [h] at hv
      simp at hv
    · refine ⟨d, ?_, h1, h2⟩
      rw [h]
      simp [VariableDeclaration, get_obj, List.lookup]

/-- On `const a = require('x'), b = 1;` the filter is true, the first replacement is an
ImportDeclaration and the second a VariableDeclaration holding the one declarator
`b = 1`. -/
theorem filter_agrees_with_classifier_witness :
    (isVarWithRequireCalls
        (constDeclaration [declarator (identifier "a") (requireCall "x"),
          declarator (identifier "b") (numberLiteral 1)]) = true ↔
      ∃ r ∈ [declarator (identifier "a") (requireCall "x"),
          declarator (identifier "b") (numberLiteral 1)].map
            (fun d => varToImport d (str "const")),
        r.get "type" = str "ImportDeclaration") ∧
      isVarWithRequireCalls
        (constDeclaration [declarator (identifier "a") (requireCall "x"),
          declarator (identifier "b") (numberLiteral 1)]) = true :=
  ⟨(filter_agrees_with_classifier.2
      (constDeclaration [declarator (identifier "a") (requireCall "x"),
        declarator (identifier "b") (numberLiteral 1)])
      [declarator (identifier "a") (requireCall "x"),
        declarator (identifier "b") (numberLiteral 1)] rfl rfl).2.1,
    by decide⟩

/-- C20: a declarator with an empty object pattern, `const {} = require('x')`, matches
`matchRequire`, every property of the empty list being simple, so `varToImport` returns an
ImportDeclaration with an empty specifier list and the string literal for source, not a
pass-through VariableDeclaration. -/
theorem varToImport_empty_pattern (dec kind id init source : JS)
    (hdec : IsDeclarator dec id init) (ht : id.get? "type" = some (str "ObjectPattern"))
    (hp : id.get? "properties" = some (arr [])) (hinit : IsRequireCall init source) :
    matchRequire dec ≠ none ∧
      varToImport dec kind = ImportDeclaration (arr []) source ∧
      varToImport dec kind ≠ VariableDeclaration kind (arr [dec]) := by
  have hid : IsSimpleObjectPattern id [] := ⟨ht, hp, by simp⟩
  have hv : varToImport dec kind = ImportDeclaration (arr []) source := by
    rw [varToImport_pattern hdec hid hinit]
    rfl
  refine ⟨?_, hv, ?_⟩
  · rw [matchRequire_pattern hdec hid hinit]
    simp
  · rw [hv]
    simp [ImportDeclaration, VariableDeclaration]

/-- The declarator `{} = require('x')` gives `import {} from 'x'`. -/
theorem varToImport_empty_pattern_witness :
    varToImport (declarator (objectPattern []) (requireCall "x")) (str "const") =
      ImportDeclaration (arr []) (stringLiteral "x") :=
  (varToImport_empty_pattern (declarator (objectPattern []) (requireCall "x")) (str "const")
    (objectPattern []) (requireCall "x") (stringLiteral "x") (isDeclarator_declarator _ _)
    rfl rfl (isRequireCall_requireCall "x")).2.1

/-! ## Lemmas on the rewritten body -/

theorem rewrittenStatement_of_candidate {c : JS} {reps : List JS}
    (hc : isVarWithRequireCalls c = true) (hr : replacements c = arr reps) :
    rewrittenStatement c = attachComments c true reps := by
  simp [rewrittenStatement, hc, hr]

theorem noCandidate_rewrittenStatement {c : JS} (hc : isVarWithRequireCalls c = true) :
    NoCandidate (rewrittenStatement c) := by
  obtain ⟨reps, hr⟩ := replacements_of_candidate hc
  rw [rewrittenStatement_of_candidate hc hr]
  exact noCandidate_attachComments c true (noCandidate_replacements hr)

theorem flatMap_rewrittenStatement_of_noCandidate {l : List JS} (h : NoCandidate l) :
    l.flatMap rewrittenStatement = l := by
  induction l with
  | nil => rfl
  | cons s rest ih =>
    have hs : isVarWithRequireCalls s = false := h s (List.mem_cons_self _ _)
    have hrest : NoCandidate rest := fun x hx => h x (List.mem_cons_of_mem _ hx)
    rw [List.flatMap_cons, ih hrest]
    simp [rewrittenStatement, hs]

theorem treeStep_exact {t c : JS} {b : List JS} (hc : isVarWithRequireCalls c = true)
    (hp : t.get "type" = str "Program") (hb : t.get "body" = arr b) (hmem : c ∈ b) :
    treeStep t c = t.set "body" (arr (splice b (b.indexOf c) (rewrittenStatement c))) := by
  obtain ⟨reps, hr⟩ := replacements_of_candidate hc
  rw [treeStep_of_candidate hc hp, rewrittenStatement_of_candidate hc hr]
  simp [multiReplaceStatement, hb, hr, List.indexOf_lt_length.mpr hmem]

theorem flatMap_splice {b : List JS} {c : JS} (hc : isVarWithRequireCalls c = true)
    (hmem : c ∈ b) :
    (splice b (b.indexOf c) (rewrittenStatement c)).flatMap rewrittenStatement =
      b.flatMap rewrittenStatement := by
  induction b with
  | nil => simp at hmem
  | cons s rest ih =>
    by_cases hs : s = c
    · subst hs
      simp [splice, List.flatMap_append,
        flatMap_rewrittenStatement_of_noCandidate (noCandidate_rewrittenStatement hc)]
    · have hmem2 : c ∈ rest := by
        rcases List.mem_cons.mp hmem with h | h
        · exact absurd h.symm hs
        · exact h
      have hi : (s :: rest).indexOf c = rest.indexOf c + 1 := List.indexOf_cons_ne _ hs
      have ih2 := ih hmem2
      rw [hi]
      simp only [splice, List.take_succ_cons, List.drop_succ_cons, List.cons_append,
        List.flatMap_cons] at ih2 ⊢
      rw [ih2]

theorem treeStep_body {t c : JS} {b : List JS} (hp : t.get "type" = str "Program")
    (hb : t.get "body" = arr b) :
    ∃ b2, (treeStep t c).get "body" = arr b2 ∧
      b2.flatMap rewrittenStatement = b.flatMap rewrittenStatement := by
  cases hc : isVarWithRequireCalls c with
  | false =>
    rw [treeStep_of_not_candidate hc]
    exact ⟨b, hb, rfl⟩
  | true =>
    by_cases hmem : c ∈ b
    · have hobj : ∃ ps, t = obj ps := by
        cases t <;> simp [JS.get, JS.get?] at hb
        exact ⟨_, rfl⟩
      obtain ⟨ps, rfl⟩ := hobj
      rw [treeStep_exact hc hp hb hmem, get_set_eq]
      exact ⟨_, rfl, flatMap_splice hc hmem⟩
    · have hstep : treeStep t c = t := by
        apply treeStep_of_not_mem
        intro b2 hb2
        rw [hb] at hb2
        have e : b = b2 := by simpa using hb2
        rw [← e]
        exact hmem
      rw [hstep]
      exact ⟨b, hb, rfl⟩

theorem foldl_treeStep_body (cs : List JS) {t : JS} {b : List JS}
    (hp : t.get "type" = str "Program") (hb : t.get "body" = arr b) :
    ∃ b2, (cs.foldl treeStep t).get "body" = arr b2 ∧
      b2.flatMap rewrittenStatement = b.flatMap rewrittenStatement := by
  induction cs generalizing t b with
  | nil => exact ⟨b, hb, rfl⟩
  | cons c cs ih =>
    obtain ⟨b1, hb1, e1⟩ := treeStep_body (c := c) hp hb
    obtain ⟨b2, hb2, e2⟩ := ih (t := treeStep t c) (by rw [treeStep_type, hp]) hb1
    exact ⟨b2, hb2, e2.trans e1⟩

theorem transform_body {ast : JS} {body : List JS} (hp : ast.get "type" = str "Program")
    (hb : ast.get "body" = arr body) :
    (transform ast).1.get "body" = arr (body.flatMap rewrittenStatement) := by
  obtain ⟨b2, hb2, e⟩ := foldl_treeStep_body (children ast) hp hb
  rw [← transform_fst] at hb2
  have hn := transform_body_noCandidate hp hb2
  rw [flatMap_rewrittenStatement_of_noCandidate hn] at e
  rw [hb2, e]

theorem splice_at_first {pre post r : List JS} {node : JS} (h : node ∉ pre) :
    splice (pre ++ node :: post) ((pre ++ node :: post).indexOf node) r = pre ++ r ++ post := by
  have hi : (pre ++ node :: post).indexOf node = pre.length := by
    rw [List.indexOf_append_of_not_mem h]
    simp
  rw [hi]
  simp [splice]

theorem enter_step_body {parent node : JS} {pre post : List JS}
    (hc : isVarWithRequireCalls node = true) (hp : parent.get "type" = str "Program")
    (hb : parent.get "body" = arr (pre ++ node :: post)) (hpre : node ∉ pre) :
    (perform (enter node parent) (parent, [])).1.get "body" =
      arr (pre ++ rewrittenStatement node ++ post) := by
  have hobj : ∃ ps, parent = obj ps := by
    cases parent <;> simp [JS.get, JS.get?] at hb
    exact ⟨_, rfl⟩
  obtain ⟨ps, rfl⟩ := hobj
  have h := treeStep_exact hc hp hb (by simp)
  unfold treeStep at h
  rw [h, get_set_eq, splice_at_first hpre]

theorem varToImport_obj (dec kind : JS) : ∃ ps, varToImport dec kind = obj ps := by
  rcases varToImport_cases dec kind with h | ⟨h, _, _⟩
  · cases hv : varToImport dec kind <;> rw [hv] at h <;> simp [JS.get, JS.get?] at h
    exact ⟨_, rfl⟩
  · exact ⟨_, h⟩

/-! ## The claims on the splice and on comments -/

/-- C14: when a candidate statement at the program root is rewritten, its replacement
statements take its place in the parent's body: the statements before it and after it are
unchanged and keep their order, and the replacements stand together, in declarator order.
This holds for the one call of the handler and for the whole run, whose body is the old
body with every candidate replaced where it stood. -/
theorem rewrite_in_place (ast : JS) (body : List JS) (hp : ast.get "type" = str "Program")
    (hb : ast.get "body" = arr body) :
    (transform ast).1.get "body" = arr (body.flatMap rewrittenStatement) ∧
      (∀ (pre post : List JS) (node : JS), body = pre ++ node :: post →
        IsCandidate node → node ∉ pre →
        (perform (enter node ast) (ast, [])).1.get "body" =
          arr (pre ++ rewrittenStatement node ++ post)) ∧
      (∀ (node : JS) (decs : List JS), IsCandidate node →
        node.get "declarations" = arr decs →
        rewrittenStatement node =
          attachComments node true (decs.map (fun d => varToImport d (node.get "kind")))) ∧
      (∀ s : JS, isVarWithRequireCalls s = false → rewrittenStatement s = [s]) := by
  refine ⟨transform_body hp hb, ?_, ?_, ?_⟩
  · intro pre post node hsplit hc hpre
    rw [hsplit] at hb
    exact enter_step_body ((isCandidate_iff node).mp hc) hp hb hpre
  · intro node decs hc hd
    apply rewrittenStatement_of_candidate ((isCandidate_iff node).mp hc)
    simp [replacements, hd, JS.arrayMap]
  · intro s hs
    simp [rewrittenStatement, hs]

/-- The program `const c = 2; const a = require('x'), b = 1; const d = 3;` becomes
`const c = 2; import a from 'x'; const b = 1; const d = 3;`. -/
theorem rewrite_in_place_witness :
    (transform (program
        [constDeclaration [declarator (identifier "c") (numberLiteral 2)],
          constDeclaration [declarator (identifier "a") (requireCall "x"),
            declarator (identifier "b") (numberLiteral 1)],
          constDeclaration [declarator (identifier "d") (numberLiteral 3)]])).1.get "body" =
      arr [constDeclaration [declarator (identifier "c") (numberLiteral 2)],
        ImportDeclaration (arr [ImportDefaultSpecifier (identifier "a")]) (stringLiteral "x"),
        VariableDeclaration (str "const")
          (arr [declarator (identifier "b") (numberLiteral 1)]),
        constDeclaration [declarator (identifier "d") (numberLiteral 3)]] :=
  (rewrite_in_place
    (program
      [constDeclaration [declarator (identifier "c") (numberLiteral 2)],
        constDeclaration [declarator (identifier "a") (requireCall "x"),
          declarator (identifier "b") (numberLiteral 1)],
        constDeclaration [declarator (identifier "d") (numberLiteral 3)]])
    [constDeclaration [declarator (identifier "c") (numberLiteral 2)],
      constDeclaration [declarator (identifier "a") (requireCall "x"),
        declarator (identifier "b") (numberLiteral 1)],
      constDeclaration [declarator (identifier "d") (numberLiteral 3)]]
    rfl rfl).1.trans (by decide)

/-- C15: when a candidate statement is rewritten, the comments attached to it are not
dropped. The handler asks for the rewrite with `preserveComments` set to true, and the first
replacement statement is the first declarator's replacement with the comments of the
original statement attached, its other properties untouched; the other replacements follow
it as they are. -/
theorem comments_on_first_replacement (node parent comments d : JS) (ds : List JS)
    (hc : IsCandidate node) (hp : parent.get "type" = str "Program")
    (hd : node.get "declarations" = arr (d :: ds))
    (hcm : node.get? "comments" = some comments) :
    enter node parent =
        Effect.multiReplaceStatement parent node (replacements node) true ∧
      rewrittenStatement node =
        (varToImport d (node.get "kind")).set "comments" comments ::
          ds.map (fun x => varToImport x (node.get "kind")) ∧
      ((varToImport d (node.get "kind")).set "comments" comments).get "comments" =
        comments ∧
      (∀ k : String, k ≠ "comments" →
        ((varToImport d (node.get "kind")).set "comments" comments).get k =
          (varToImport d (node.get "kind")).get k) ∧
      (∀ pre post : List JS, parent.get "body" = arr (pre ++ node :: post) → node ∉ pre →
        (perform (enter node parent) (parent, [])).1.get "body" =
          arr (pre ++
            ((varToImport d (node.get "kind")).set "comments" comments ::
              ds.map (fun x => varToImport x (node.get "kind"))) ++ post)) := by
  have hcand := (isCandidate_iff node).mp hc
  have hr : replacements node =
      arr ((d :: ds).map (fun x => varToImport x (node.get "kind"))) := by
    simp [replacements, hd, JS.arrayMap]
  have hrw : rewrittenStatement node =
      (varToImport d (node.get "kind")).set "comments" comments ::
        ds.map (fun x => varToImport x (node.get "kind")) := by
    rw [rewrittenStatement_of_candidate hcand hr]
    simp [attachComments, copyComments, hcm]
  refine ⟨by simp [enter, hcand, hp], hrw, ?_, ?_, ?_⟩
  · obtain ⟨ps, hps⟩ := varToImport_obj d (node.get "kind")
    rw [hps, get_set_eq]
  · intro k hk
    exact get_set_ne _ _ hk
  · intro pre post hb hpre
    rw [← hrw]
    exact enter_step_body hcand hp hb hpre

/-- The statement `// load x` `const a = require('x'), b = 1;` becomes `import a from 'x';`
carrying the comment, followed by `const b = 1;`. -/
theorem comments_on_first_replacement_witness :
    (transform (program
        [withComments
          (constDeclaration [declarator (identifier "a") (requireCall "x"),
            declarator (identifier "b") (numberLiteral 1)])
          [lineComment " load x"]])).1.get "body" =
      arr [withComments
          (ImportDeclaration (arr [ImportDefaultSpecifier (identifier "a")])
            (stringLiteral "x"))
          [lineComment " load x"],
        VariableDeclaration (str "const")
          (arr [declarator (identifier "b") (numberLiteral 1)])] ∧
      rewrittenStatement
          (withComments
            (constDeclaration [declarator (identifier "a") (requireCall "x"),
              declarator (identifier "b") (numberLiteral 1)])
            [lineComment " load x"]) =
        [withComments
          (ImportDeclaration (arr [ImportDefaultSpecifier (identifier "a")])
            (stringLiteral "x"))
          [lineComment " load x"],
        VariableDeclaration (str "const")
          (arr [declarator (identifier "b") (numberLiteral 1)])] :=
  ⟨by decide,
    (comments_on_first_replacement
      (withComments
        (constDeclaration [declarator (identifier "a") (requireCall "x"),
          declarator (identifier "b") (numberLiteral 1)])
        [lineComment " load x"])
      (program [])
      (arr [lineComment " load x"])
      (declarator (identifier "a") (requireCall "x"))
      [declarator (identifier "b") (numberLiteral 1)]
      ((isCandidate_iff _).mpr (by decide)) (by decide) (by decide) (by decide)).2.1.trans
      (by decide)⟩

end Lebab
